import Mathlib

/-!
# Verification of the SU(4) → SU(2)×SU(2) branching-rule computation

Shallow embedding of the branching engine in `su4_branching.py` and of the
U(6)/U(10) → SU(4) adapter in `su4_cli.py`, together with proofs of the
specified properties.

Modelling conventions:
* Python's unbounded `int` is `ℤ`; Python `float` arithmetic on the
  half-integer quantities appearing here is modelled exactly by `ℚ`
  (all intermediate values are dyadic rationals that IEEE doubles
  represent exactly at the magnitudes the program is designed for).
* Python's `int(x)` conversion truncates toward zero: `pyInt`.
* Python's `range(start, stop, step)` for positive `step`: `pyRange`.
* A raised exception is an `Except.error`; the distinct raise sites of the
  source are distinguished by constructors.
-/

namespace Su4

/-- Python `int(x)`: truncation toward zero. -/
def pyInt (q : ℚ) : ℤ := if 0 ≤ q then ⌊q⌋ else ⌈q⌉

/-- Python `range(start, stop, step)` for a positive `step`, as a list of
integers (`len = max 0 (⌈(stop-start)/step⌉)`). -/
def pyRange (start stop step : ℤ) : List ℤ :=
  (List.range ((Int.fdiv (stop - start + step - 1) step).toNat)).map
    (fun (k : ℕ) => start + step * (k : ℤ))

/-- The raise sites of `su4_branching.py` reachable from `racah_su4_to_st`:
the explicit `ValueError` for a violated Young-tableau ordering, and the
`NameError` from the call to `display`, a name that is neither defined nor
imported in the module (so the verbose branch fails in plain Python). -/
inductive PyErr where
  | valueError (msg : String)
  | nameError (name : String)
  deriving Repr, DecidableEq

/-- One row of the `ST_irreps` table:
`[S, T, int(mult), int(dim_st), int(sum_dim_st)]`. -/
structure STRow where
  S : ℚ
  T : ℚ
  mult : ℤ
  dim : ℤ
  cum : ℤ
  deriving Repr, DecidableEq

/-- The single row of the `SU4_irrep` table (bracket decorations dropped):
`[f1, f2, f3, f4, Fraction(p1), Fraction(p2), Fraction(p3), alpha, beta,
gamma, cas2su4, int(dimsu4)]`. -/
structure SU4Info where
  f1 : ℤ
  f2 : ℤ
  f3 : ℤ
  f4 : ℤ
  p1 : ℚ
  p2 : ℚ
  p3 : ℚ
  alpha : ℤ
  beta : ℤ
  gamma : ℤ
  casimir : ℚ
  dimension : ℤ
  deriving Repr, DecidableEq

/-- `dimsu4`: `(f1-f2+1)*(f1-f3+2)*(f1-f4+3)*(f2-f3+1)*(f2-f4+2)*(f3-f4+1)/12.` -/
def dimsu4 (f1 f2 f3 f4 : ℤ) : ℚ :=
  (((f1-f2+1)*(f1-f3+2)*(f1-f4+3)*(f2-f3+1)*(f2-f4+2)*(f3-f4+1) : ℤ) : ℚ) / 12

/-- `dimST`: `(2.*S + 1.) * (2.*T + 1.) * mult`. -/
def dimST (S T mult : ℚ) : ℚ := (2*S + 1) * (2*T + 1) * mult

/-- `cas2su4`: the second-order Casimir polynomial. -/
def cas2su4 (alpha beta gamma : ℤ) : ℤ :=
  3*alpha*(alpha+4) + 4*beta*(beta+4) + 3*gamma*(gamma+4)
    + 4*beta*(alpha+gamma) + 2*alpha*gamma

/-- `Q(x)`: `int(x**2/4.)` when `x > 0`, else `0`. -/
def Q (x : ℚ) : ℚ := if 0 < x then ((pyInt (x^2 / 4) : ℤ) : ℚ) else 0

lemma pyInt_of_nonneg {q : ℚ} (h : 0 ≤ q) : pyInt q = ⌊q⌋ := by
  simp [pyInt, h]

/-- Python's toward-zero truncation in `Q` is the floor, because `x²/4 ≥ 0`. -/
lemma Q_eq_floor (x : ℚ) : Q x = if 0 < x then ((⌊x^2 / 4⌋ : ℤ) : ℚ) else 0 := by
  unfold Q
  rw [pyInt_of_nonneg (by positivity)]

/-- `WTS(w1, w2, T, S)`: the weight multiplicity function. -/
def WTS (w1 w2 T S : ℚ) : ℚ :=
  let w12 := (w1 + w2) / 2
  if T ≤ w12 ∧ S ≤ w12 ∧ w2 ≤ w1 then
    Q (w2+2-|T-S|) - Q (w2+1-T-S) + Q (T+S-w1-1) - Q (T+S-|T-S|-w1+w2+1) / 2
  else 0

/-- `Multi(p1, p2, p3, T, S)`: the branching multiplicity. -/
def Multi (p1 p2 p3 T S : ℚ) : ℚ :=
  WTS (p1 + |p3|) (p1 - |p3|) T S
    - WTS (p1 + p2 + 1) (p1 - p2 - 1) T S
    - WTS (p2 + |p3| - 1) (p2 - |p3| - 1) T S

/-- Append the cumulative `int(sum_dim_st)` column.  The running float
accumulator of the source adds `dimST` of exactly the rows it appends in the
integer branch and additionally `dimST` of the zero-multiplicity pairs
(which contribute exactly `0`) in the half-integer branch, so in both
branches its value at each appended row is the sum of `dimST` over the rows
appended so far; `acc` carries that exact value. -/
def addCum (acc : ℚ) : List (ℚ × ℚ × ℤ × ℤ) → List STRow
  | [] => []
  | (S, T, m, d) :: rest =>
      let acc' := acc + dimST S T (m : ℚ)
      ⟨S, T, m, d, pyInt acc'⟩ :: addCum acc' rest

/-- The filtered enumeration body shared by both loops: for each `(S, T)`
pair of the grid (outer loop `S`, inner loop `T`), compute
`mult = Multi(p1, p2, p3, T, S)` and keep `[S, T, int(mult), int(dim_st)]`
when `mult != 0`. -/
def stPairs (p1 p2 p3 : ℚ) (gridVals : List ℚ) : List (ℚ × ℚ × ℤ × ℤ) :=
  gridVals.flatMap (fun S =>
    (gridVals.filterMap (fun T =>
      let mult := Multi p1 p2 p3 T S
      if mult ≠ 0 then some (S, T, pyInt mult, pyInt (dimST S T mult)) else none)))

/-- The S/T iteration values: `range(int(min_st), int(max_st)+1)` as exact
values in the integer branch, `[v/2 for v in range(int(min_st*2), int(max_st*2)+2, 2)]`
in the half-integer branch (the source divides the doubled loop counter
by `2.` wherever it uses it). -/
def stGrid (p1 p2 : ℚ) : List ℚ :=
  let max_st := max p1 p2
  if pyInt (2 * p1) % 2 = 0 then
    -- min_st = 0.0 ; the parity test `(2*p1) % 2 == 0` on the exact value
    (pyRange 0 (pyInt max_st + 1) 1).map (fun (v : ℤ) => (v : ℚ))
  else
    -- min_st = 0.5
    (pyRange 1 (pyInt (max_st * 2) + 2) 2).map (fun (v : ℤ) => (v : ℚ) / 2)

/-- `p1 = (f1 + f2 - f3 - f4) / 2.0`. -/
def p1Of (f1 f2 f3 f4 : ℤ) : ℚ := ((f1 + f2 - f3 - f4 : ℤ) : ℚ) / 2

/-- `p2 = (f1 - f2 + f3 - f4) / 2.0`. -/
def p2Of (f1 f2 f3 f4 : ℤ) : ℚ := ((f1 - f2 + f3 - f4 : ℤ) : ℚ) / 2

/-- `p3 = (f1 - f2 - f3 + f4) / 2.0`. -/
def p3Of (f1 f2 f3 f4 : ℤ) : ℚ := ((f1 - f2 - f3 + f4 : ℤ) : ℚ) / 2

/-- The `SU4_irrep` row: alternative notations, Casimir, dimension. -/
def infoOf (f1 f2 f3 f4 : ℤ) : SU4Info :=
  { f1 := f1, f2 := f2, f3 := f3, f4 := f4
    p1 := p1Of f1 f2 f3 f4, p2 := p2Of f1 f2 f3 f4, p3 := p3Of f1 f2 f3 f4
    alpha := f1 - f2, beta := f2 - f3, gamma := f3 - f4
    casimir := ((cas2su4 (f1 - f2) (f2 - f3) (f3 - f4) : ℤ) : ℚ)
    dimension := pyInt (dimsu4 f1 f2 f3 f4) }

/-- The `ST_irreps` table built by the enumeration loops. -/
def rowsOf (f1 f2 f3 f4 : ℤ) : List STRow :=
  addCum 0 (stPairs (p1Of f1 f2 f3 f4) (p2Of f1 f2 f3 f4) (p3Of f1 f2 f3 f4)
    (stGrid (p1Of f1 f2 f3 f4) (p2Of f1 f2 f3 f4)))

/-- `racah_su4_to_st(f1, f2, f3, f4, verbose)`.

Mirrors `su4_branching.py`: validate the Young-tableau ordering; derive
`(alpha, beta, gamma)`, `(p1, p2, p3)`, dimension and Casimir; enumerate the
`(S, T)` grid determined by the parity of `2*p1`, keeping the pairs of
nonzero multiplicity; if `verbose` the function then calls the undefined
name `display` and dies with a `NameError`, otherwise it returns both
tables. -/
def racah_su4_to_st (f1 f2 f3 f4 : ℤ) (verbose : Bool := true) :
    Except PyErr (SU4Info × List STRow) :=
  if f3 < f4 ∨ f2 < f3 ∨ f1 < f2 then
    .error (.valueError "Young tableau condition violated: f1 ≥ f2 ≥ f3 ≥ f4 required")
  else if verbose then .error (.nameError "display")
  else .ok (infoOf f1 f2 f3 f4, rowsOf f1 f2 f3 f4)

/-! ## The U(6)/U(10) → SU(4) adapter of `su4_cli.py` -/

/-- The raise sites of `SymmetryError` in `u6_to_su4_irrep` /
`u10_to_su4_irrep` (the source uses a single exception class with three
distinct messages; the constructors mirror the three raise sites). -/
inductive SymmetryError where
  | badInput
  | notNonIncreasing
  | pauliViolation
  deriving Repr, DecidableEq

/-- Sum of the non-negative parts, the termination measure of the
conjugation loop. -/
def natSum (l : List ℤ) : ℕ := (l.map Int.toNat).sum

lemma natSum_dec_le (l : List ℤ) :
    natSum ((l.filter (fun x => 0 < x)).map (fun x => x - 1)) ≤ natSum l := by
  induction l with
  | nil => simp [natSum]
  | cons a t ih =>
    by_cases ha : 0 < a
    · have hd : (decide (0 < a)) = true := decide_eq_true ha
      simp only [natSum, List.filter_cons, hd, if_true, List.map_cons, List.sum_cons] at *
      omega
    · have hd : (decide (0 < a)) = false := decide_eq_false ha
      simp only [natSum, List.filter_cons, hd, Bool.false_eq_true, if_false, List.map_cons, List.sum_cons] at *
      omega

lemma natSum_dec_lt (l : List ℤ) (h : l.any (fun x => 0 < x)) :
    natSum ((l.filter (fun x => 0 < x)).map (fun x => x - 1)) < natSum l := by
  induction l with
  | nil => simp at h
  | cons a t ih =>
    by_cases ha : 0 < a
    · have := natSum_dec_le t
      have hd : (decide (0 < a)) = true := decide_eq_true ha
      simp only [natSum, List.filter_cons, hd, if_true, List.map_cons, List.sum_cons] at *
      omega
    · have ht : t.any (fun x => 0 < x) := by
        simp only [List.any_cons] at h
        rcases Bool.or_eq_true_iff.mp h with h' | h'
        · exact absurd (of_decide_eq_true h') ha
        · exact h'
      have := ih ht
      have hd : (decide (0 < a)) = false := decide_eq_false ha
      simp only [natSum, List.filter_cons, hd, Bool.false_eq_true, if_false, List.map_cons, List.sum_cons] at *
      omega

/-- The conjugation loop: while any entry is positive, append the count of
non-zero entries (`np.count_nonzero`), then keep the positive entries and
decrement them (`current[current > 0] - 1`). -/
def conjSteps (current : List ℤ) : List ℤ :=
  if h : current.any (fun x => 0 < x) then
    ((current.countP (fun x => x ≠ 0)) : ℤ)
      :: conjSteps ((current.filter (fun x => 0 < x)).map (fun x => x - 1))
  else []
termination_by natSum current
decreasing_by exact natSum_dec_lt _ h

/-- The simplification loop: while at least 4 parts remain, drop the last
part and subtract it from every other part. -/
def simplifySteps (l : List ℤ) : List ℤ :=
  if h : 4 ≤ l.length then
    simplifySteps ((l.dropLast).map (fun x => x - l.getLast!))
  else l
termination_by l.length
decreasing_by simp [List.length_dropLast]; omega

/-- Right-pad with zeros to (at least) 4 entries (`extend([0] * (4 - len))`,
where a negative repeat count yields the empty list, as in Python). -/
def padTo4 (l : List ℤ) : List ℤ := l ++ List.replicate (4 - l.length) 0

/-- Common body of `u6_to_su4_irrep` and `u10_to_su4_irrep` (the two source
functions are textually identical up to the expected length `n` and the
wording of the messages): validate the input (length `n`, non-negative
entries, non-increasing — the source compares against `sorted(·, reverse=True)`,
which holds exactly for non-increasing lists), check the Pauli constraint
`u[0] ≤ 4`, conjugate, simplify, pad, and return the first 4 entries. -/
def uShell_to_su4_irrep (n : ℕ) (u : List ℤ) : Except SymmetryError (ℤ × ℤ × ℤ × ℤ) :=
  if u.length ≠ n ∨ u.any (fun x => x < 0) then .error .badInput
  else if ¬ u.Chain' (fun a b => b ≤ a) then .error .notNonIncreasing
  else if 4 < u.headI then .error .pauliViolation
  else
    let su4 := simplifySteps (conjSteps u)
    let padded := padTo4 su4
    .ok (padded.getD 0 0, padded.getD 1 0, padded.getD 2 0, padded.getD 3 0)

/-- `u6_to_su4_irrep` of `su4_cli.py`. -/
def u6_to_su4_irrep (u : List ℤ) : Except SymmetryError (ℤ × ℤ × ℤ × ℤ) :=
  uShell_to_su4_irrep 6 u

/-- `u10_to_su4_irrep` of `su4_cli.py`. -/
def u10_to_su4_irrep (u : List ℤ) : Except SymmetryError (ℤ × ℤ × ℤ × ℤ) :=
  uShell_to_su4_irrep 10 u

/-- Largest entry of the list, clamped to ℕ (the number of columns of the
Young diagram). -/
def natMax (l : List ℤ) : ℕ := l.foldr (fun x m => max x.toNat m) 0

/-- The spec's view of the transposition step (`§6`): the conjugate
partition of `u`, whose `i`-th part is the number of parts of `u`
exceeding `i`. -/
def specConjugate (u : List ℤ) : List ℤ :=
  (List.range (natMax u)).map (fun (i : ℕ) => (u.countP (fun x => (i : ℤ) < x) : ℤ))

/-! ## Reference definitions written from the specification text -/

/-- Modelled from the spec: `Q(x)` is `floor(x²/4)` when `x > 0`, else `0`. -/
def specQ (x : ℚ) : ℚ := if 0 < x then ((⌊x^2 / 4⌋ : ℤ) : ℚ) else 0

/-- Modelled from the spec: `WeightMult(w1, w2, T, S)` with `w12 = (w1+w2)/2`
returns 0 unless `T ≤ w12`, `S ≤ w12` and `w1 ≥ w2`, and otherwise
`Q(w2+2−|T−S|) − Q(w2+1−T−S) + Q(T+S−w1−1) − Q(T+S−|T−S|−w1+w2+1)/2`. -/
def specWeightMult (w1 w2 T S : ℚ) : ℚ :=
  let w12 := (w1 + w2) / 2
  if T ≤ w12 ∧ S ≤ w12 ∧ w2 ≤ w1 then
    specQ (w2+2-|T-S|) - specQ (w2+1-T-S) + specQ (T+S-w1-1)
      - specQ (T+S-|T-S|-w1+w2+1) / 2
  else 0

/-- Modelled from the spec: the three-term `Multiplicity` composite. -/
def specMultiplicity (p1 p2 p3 T S : ℚ) : ℚ :=
  specWeightMult (p1 + |p3|) (p1 - |p3|) T S
    - specWeightMult (p1 + p2 + 1) (p1 - p2 - 1) T S
    - specWeightMult (p2 + |p3| - 1) (p2 - |p3| - 1) T S

/-! ## The conjugation loop computes the conjugate partition -/

lemma natMax_nil : natMax [] = 0 := rfl

lemma natMax_cons (a : ℤ) (t : List ℤ) : natMax (a :: t) = max a.toNat (natMax t) := rfl

lemma natMax_eq_zero (l : List ℤ) (h : l.any (fun x => 0 < x) = false) :
    natMax l = 0 := by
  induction l with
  | nil => rfl
  | cons a t ih =>
    simp only [List.any_cons, Bool.or_eq_false_iff] at h
    rw [natMax_cons, ih h.2]
    have : ¬ (0 < a) := by simpa using h.1
    omega

lemma natMax_dec (l : List ℤ) (h : l.any (fun x => 0 < x) = true) :
    natMax ((l.filter (fun x => 0 < x)).map (fun x => x - 1)) = natMax l - 1 := by
  induction l with
  | nil => simp at h
  | cons a t ih =>
    by_cases ha : 0 < a
    · have hd : (decide (0 < a)) = true := decide_eq_true ha
      rw [List.filter_cons, if_pos hd, List.map_cons, natMax_cons, natMax_cons]
      by_cases ht : t.any (fun x => 0 < x) = true
      · rw [ih ht]
        omega
      · rw [natMax_eq_zero t (by simpa using ht)]
        have ht' : (t.filter (fun x => 0 < x)) = [] := by
          rw [List.filter_eq_nil_iff]
          intro x hx
          simp only [List.any_eq_true] at ht
          simp only [decide_eq_true_eq]
          intro hx0
          exact ht ⟨x, hx, decide_eq_true hx0⟩
        rw [ht', List.map_nil, natMax_nil]
        omega
    · have hd : (decide (0 < a)) = false := decide_eq_false ha
      rw [List.filter_cons, if_neg (by simp [hd]), natMax_cons]
      have ht : t.any (fun x => 0 < x) = true := by
        simp only [List.any_cons] at h
        rcases Bool.or_eq_true_iff.mp h with h' | h'
        · exact absurd (of_decide_eq_true h') ha
        · exact h'
      rw [ih ht]
      omega

lemma natMax_pos_of_any (l : List ℤ) (h : l.any (fun x => 0 < x) = true) :
    1 ≤ natMax l := by
  induction l with
  | nil => simp at h
  | cons a t ih =>
    rw [natMax_cons]
    simp only [List.any_cons] at h
    rcases Bool.or_eq_true_iff.mp h with h' | h'
    · have := of_decide_eq_true h'
      omega
    · have := ih h'
      omega

lemma countP_dec (u : List ℤ) (i : ℕ) :
    ((u.filter (fun x => 0 < x)).map (fun x => x - 1)).countP
        (fun x => decide ((i : ℤ) < x)) =
      u.countP (fun x => decide (((i : ℕ) + 1 : ℤ) < x)) := by
  rw [List.countP_map, List.countP_filter]
  apply List.countP_congr
  intro x _
  simp only [Function.comp_apply, Bool.and_eq_true, decide_eq_true_eq]
  constructor
  · rintro ⟨h1, h2⟩
    omega
  · intro h
    have hx0 : (0 : ℤ) < x := by push_cast at h ⊢; omega
    exact ⟨by omega, hx0⟩

lemma conjSteps_eq_specConjugate (u : List ℤ) (hu : ∀ x ∈ u, 0 ≤ x) :
    conjSteps u = specConjugate u := by
  suffices H : ∀ (N : ℕ) (v : List ℤ), natMax v ≤ N → (∀ x ∈ v, 0 ≤ x) →
      conjSteps v = specConjugate v from H (natMax u) u le_rfl hu
  intro N
  induction N with
  | zero =>
    intro v hN hv
    have hany : v.any (fun x => 0 < x) = false := by
      by_contra hcon
      have := natMax_pos_of_any v (by simpa using hcon)
      omega
    rw [conjSteps, dif_neg (by simp [hany])]
    unfold specConjugate
    rw [natMax_eq_zero v hany]
    simp
  | succ n ih =>
    intro v hN hv
    by_cases hany : v.any (fun x => 0 < x) = true
    · rw [conjSteps, dif_pos hany]
      have hm1 : 1 ≤ natMax v := natMax_pos_of_any v hany
      unfold specConjugate
      rw [show natMax v = (natMax v - 1) + 1 by omega, List.range_succ_eq_map, List.map_cons]
      congr 1
      · congr 1
        apply List.countP_congr
        intro x hx
        have := hv x hx
        simp only [decide_eq_true_eq]
        constructor
        · intro hne
          push_cast
          omega
        · intro hlt
          push_cast at hlt
          omega
      · have hdec : ∀ x ∈ (v.filter (fun x => 0 < x)).map (fun x => x - 1), 0 ≤ x := by
          intro x hx
          rw [List.mem_map] at hx
          obtain ⟨y, hy, rfl⟩ := hx
          rw [List.mem_filter] at hy
          have := of_decide_eq_true hy.2
          omega
        rw [ih _ (by rw [natMax_dec _ hany]; omega) hdec]
        unfold specConjugate
        rw [natMax_dec _ hany, List.map_map]
        apply List.map_congr_left
        intro i _
        simp only [Function.comp_apply]
        congr 1
        rw [countP_dec v i]
        apply List.countP_congr
        intro x _
        simp only [decide_eq_true_eq]
        constructor <;> intro h <;> push_cast at h ⊢ <;> omega
    · rw [conjSteps, dif_neg (by simpa using hany)]
      unfold specConjugate
      rw [natMax_eq_zero v (by simpa using hany)]
      simp

lemma simplifySteps_of_short (l : List ℤ) (h : l.length < 4) : simplifySteps l = l := by
  rw [simplifySteps, dif_neg (by omega)]

lemma simplifySteps_of_four (l : List ℤ) (h : l.length = 4) :
    simplifySteps l = (l.dropLast).map (fun x => x - l.getLast!) := by
  rw [simplifySteps, dif_pos (by omega)]
  apply simplifySteps_of_short
  rw [List.length_map, List.length_dropLast]
  omega

lemma specConjugate_nonneg (u : List ℤ) : ∀ y ∈ specConjugate u, 0 ≤ y := by
  intro y hy
  unfold specConjugate at hy
  rw [List.mem_map] at hy
  obtain ⟨i, _, rfl⟩ := hy
  exact Int.natCast_nonneg _

lemma specConjugate_chain (u : List ℤ) :
    (specConjugate u).Chain' (fun a b => b ≤ a) := by
  unfold specConjugate
  rw [List.chain'_map]
  cases hnm : natMax u with
  | zero => simp
  | succ m =>
    rw [List.chain'_range_succ]
    intro i _
    have hmono : u.countP (fun x => decide (((i + 1 : ℕ) : ℤ) < x)) ≤
        u.countP (fun x => decide (((i : ℕ) : ℤ) < x)) := by
      apply List.countP_mono_left
      intro x _ hx
      have := of_decide_eq_true hx
      simp only [decide_eq_true_eq]
      push_cast at this ⊢
      omega
    exact_mod_cast hmono

lemma natMax_le_iff (l : List ℤ) (m : ℕ) :
    natMax l ≤ m ↔ ∀ x ∈ l, x.toNat ≤ m := by
  induction l with
  | nil => simp [natMax_nil]
  | cons a t ih =>
    rw [natMax_cons]
    constructor
    · intro h x hx
      rcases List.mem_cons.mp hx with rfl | hxt
      · omega
      · exact (ih.mp (by omega)) x hxt
    · intro h
      have h1 := h a (List.mem_cons_self ..)
      have h2 := ih.mpr (fun x hx => h x (List.mem_cons_of_mem _ hx))
      omega

/-- The validated adapter path: Pauli rejection for `u[0] > 4`, and
otherwise the conjugate-simplify-pad pipeline with a valid SU(4)
label as the result. -/
lemma uShell_spec (n : ℕ) (u : List ℤ) (hlen : u.length = n) (hn : 1 ≤ n)
    (hpos : ∀ x ∈ u, 0 ≤ x) (hni : u.Chain' (fun a b => b ≤ a)) :
    (4 < u.headI → uShell_to_su4_irrep n u = .error .pauliViolation) ∧
    (u.headI ≤ 4 → ∃ a b c d : ℤ,
      uShell_to_su4_irrep n u = .ok (a, b, c, d) ∧
      padTo4 (simplifySteps (specConjugate u)) = [a, b, c, d] ∧
      d ≤ c ∧ c ≤ b ∧ b ≤ a ∧ 0 ≤ d) := by
  have hval : ¬(u.length ≠ n ∨ u.any (fun x => x < 0) = true) := by
    push_neg
    refine ⟨hlen, ?_⟩
    intro hcon
    obtain ⟨x, hx, hx0⟩ := List.any_eq_true.mp hcon
    exact absurd (hpos x hx) (by simpa using of_decide_eq_true hx0)
  unfold uShell_to_su4_irrep
  rw [if_neg (by simpa using hval), if_neg (not_not_intro hni)]
  constructor
  · intro hp
    rw [if_pos hp]
  · intro hp
    rw [if_neg (not_lt.mpr hp)]
    rw [conjSteps_eq_specConjugate u hpos]
    have hcnn := specConjugate_nonneg u
    have hcch := specConjugate_chain u
    have hclen : (specConjugate u).length ≤ 4 := by
      unfold specConjugate
      rw [List.length_map, List.length_range, natMax_le_iff]
      intro x hx
      obtain ⟨h0, t, rfl⟩ : ∃ h0 t, u = h0 :: t := by
        cases u with
        | nil => simp at hlen; omega
        | cons a t => exact ⟨a, t, rfl⟩
      have hh0 : h0 ≤ 4 := by simpa using hp
      rcases List.mem_cons.mp hx with rfl | hxt
      · omega
      · haveI : IsTrans ℤ (fun a b : ℤ => b ≤ a) := ⟨fun _ _ _ h1 h2 => le_trans h2 h1⟩
        have hpw := List.chain'_iff_pairwise.mp hni
        have := (List.pairwise_cons.mp hpw).1 x hxt
        omega
    rcases hc : specConjugate u with _ | ⟨x1, _ | ⟨x2, _ | ⟨x3, _ | ⟨x4, rest⟩⟩⟩⟩
    · refine ⟨0, 0, 0, 0, ?_, ?_, le_refl 0, le_refl 0, le_refl 0, le_refl 0⟩ <;>
        simp [simplifySteps_of_short, padTo4]
    · have h1 : 0 ≤ x1 := hcnn x1 (by rw [hc]; exact List.mem_cons_self ..)
      refine ⟨x1, 0, 0, 0, ?_, ?_, le_refl 0, le_refl 0, h1, le_refl 0⟩ <;>
        simp [simplifySteps_of_short, padTo4, List.getD]
    · rw [hc] at hcnn hcch
      have h2 : 0 ≤ x2 := hcnn x2 (by simp)
      have h21 : x2 ≤ x1 := by
        simp only [List.chain'_cons, List.chain'_singleton, and_true] at hcch
        exact hcch
      refine ⟨x1, x2, 0, 0, ?_, ?_, le_refl 0, h2, h21, le_refl 0⟩ <;>
        simp [simplifySteps_of_short, padTo4, List.getD]
    · rw [hc] at hcnn hcch
      have h3 : 0 ≤ x3 := hcnn x3 (by simp)
      simp only [List.chain'_cons, List.chain'_singleton, and_true] at hcch
      refine ⟨x1, x2, x3, 0, ?_, ?_, h3, hcch.2, hcch.1, le_refl 0⟩ <;>
        simp [simplifySteps_of_short, padTo4, List.getD]
    · have hrest : rest = [] := by
        rw [hc] at hclen
        simp only [List.length_cons] at hclen
        have hr0 : rest.length = 0 := by omega
        exact List.length_eq_zero.mp hr0
      subst hrest
      rw [hc] at hcnn hcch
      have h4 : 0 ≤ x4 := hcnn x4 (by simp)
      simp only [List.chain'_cons, List.chain'_singleton, and_true] at hcch
      obtain ⟨h12, h23, h34⟩ := hcch
      have hs4 : simplifySteps [x1, x2, x3, x4] =
          [x1 - x4, x2 - x4, x3 - x4] := by
        rw [simplifySteps_of_four _ (by simp)]
        simp [List.dropLast, List.getLast!]
      refine ⟨x1 - x4, x2 - x4, x3 - x4, 0, ?_, ?_, by omega, by omega, by omega, le_refl 0⟩ <;>
        simp [hs4, padTo4, List.getD]

/-! ## A doubled-integer mirror of the multiplicity kernel

On every evaluated grid point, `S` and `T` are halves of integers of equal
parity and all arguments of `Q` are integers.  `Qz`, `WTS2` and `Mz` mirror
the kernel on doubled integer data (`t = 2T`, `s = 2S`, label differences
`al = f1-f2`, `be = f2-f3`, `ga = f3-f4`), with `WTS2 w1 w2 t s = 2·WTS`
and `Mz al be ga t s = 2·Multi`; the arithmetic of the later proofs happens
in this integer layer. -/

def Qz (x : ℤ) : ℤ := if 0 < x then x ^ 2 / 4 else 0

def WTS2 (w1 w2 t s : ℤ) : ℤ :=
  if t ≤ w1 + w2 ∧ s ≤ w1 + w2 ∧ w2 ≤ w1 then
    2 * Qz (w2 + 2 - |t - s| / 2) - 2 * Qz (w2 + 1 - (t + s) / 2)
      + 2 * Qz ((t + s) / 2 - w1 - 1) - Qz (min t s - w1 + w2 + 1)
  else 0

def Mz (al be ga t s : ℤ) : ℤ :=
  WTS2 (be + max al ga) (be + min al ga) t s
    - WTS2 (al + be + ga + 1) (be - 1) t s
    - WTS2 (max al ga - 1) (min al ga - 1) t s

lemma Q_intCast (n : ℤ) : Q ((n : ℚ)) = ((Qz n : ℤ) : ℚ) := by
  unfold Q Qz
  by_cases h : 0 < n
  · have hq : (0 : ℚ) < (n : ℚ) := by exact_mod_cast h
    rw [if_pos hq, if_pos h, pyInt_of_nonneg (by positivity)]
    have harg : ((n : ℚ)) ^ 2 / 4 = ((n ^ 2 : ℤ) : ℚ) / ((4 : ℕ) : ℚ) := by
      push_cast
      ring
    rw [harg, Rat.floor_intCast_div_natCast]
    norm_num
  · have hq : ¬ (0 : ℚ) < (n : ℚ) := by exact_mod_cast h
    rw [if_neg hq, if_neg h]
    norm_num

lemma WTS_cast (w1 w2 t s k : ℤ) (hk : t = s + 2 * k) :
    WTS (w1 : ℚ) (w2 : ℚ) ((t : ℚ) / 2) ((s : ℚ) / 2) =
      ((WTS2 w1 w2 t s : ℤ) : ℚ) / 2 := by
  have hTS : (t : ℚ) / 2 - (s : ℚ) / 2 = (k : ℤ) := by
    rw [hk]
    push_cast
    ring
  have habsZ : |t - s| / 2 = |k| := by
    rw [hk]
    have : s + 2 * k - s = 2 * k := by ring
    rw [this, abs_mul, abs_two, Int.mul_ediv_cancel_left _ two_ne_zero]
  have hsumZ : (t + s) / 2 = s + k := by
    omega
  have hminZ : min t s = s + 2 * min k 0 := by
    rcases le_or_lt k 0 with h | h
    · rw [min_eq_left (by omega : t ≤ s), min_eq_left h]
      omega
    · rw [min_eq_right (by omega : s ≤ t), min_eq_right h.le]
      omega
  unfold WTS WTS2
  by_cases hcond : t ≤ w1 + w2 ∧ s ≤ w1 + w2 ∧ w2 ≤ w1
  · have hcq : (t : ℚ) / 2 ≤ ((w1 : ℚ) + (w2 : ℚ)) / 2 ∧
        (s : ℚ) / 2 ≤ ((w1 : ℚ) + (w2 : ℚ)) / 2 ∧ (w2 : ℚ) ≤ (w1 : ℚ) := by
      refine ⟨?_, ?_, by exact_mod_cast hcond.2.2⟩ <;>
        · rw [div_le_div_iff_of_pos_right (by norm_num : (0 : ℚ) < 2)]
          exact_mod_cast (by omega : _ ≤ w1 + w2)
    rw [if_pos hcq, if_pos hcond]
    have e1 : (w2 : ℚ) + 2 - |(t : ℚ) / 2 - (s : ℚ) / 2| = ((w2 + 2 - |t - s| / 2 : ℤ) : ℚ) := by
      rw [hTS, habsZ]
      push_cast [Int.cast_abs]
      ring
    have e2 : (w2 : ℚ) + 1 - (t : ℚ) / 2 - (s : ℚ) / 2 = ((w2 + 1 - (t + s) / 2 : ℤ) : ℚ) := by
      rw [hsumZ, hk]
      push_cast
      ring
    have e3 : (t : ℚ) / 2 + (s : ℚ) / 2 - (w1 : ℚ) - 1 = (((t + s) / 2 - w1 - 1 : ℤ) : ℚ) := by
      rw [hsumZ, hk]
      push_cast
      ring
    have e4 : (t : ℚ) / 2 + (s : ℚ) / 2 - |(t : ℚ) / 2 - (s : ℚ) / 2| - (w1 : ℚ) + (w2 : ℚ) + 1 =
        ((min t s - w1 + w2 + 1 : ℤ) : ℚ) := by
      rw [hTS, hminZ]
      rcases le_or_lt k 0 with h | h
      · rw [min_eq_left h, abs_of_nonpos (by exact_mod_cast h : (k : ℚ) ≤ 0)]
        subst hk
        push_cast
        ring
      · rw [min_eq_right h.le, abs_of_pos (by exact_mod_cast h : (0 : ℚ) < (k : ℚ))]
        subst hk
        push_cast
        ring
    rw [e1, e2, e3, e4, Q_intCast, Q_intCast, Q_intCast, Q_intCast]
    push_cast
    ring
  · have hcq : ¬ ((t : ℚ) / 2 ≤ ((w1 : ℚ) + (w2 : ℚ)) / 2 ∧
        (s : ℚ) / 2 ≤ ((w1 : ℚ) + (w2 : ℚ)) / 2 ∧ (w2 : ℚ) ≤ (w1 : ℚ)) := by
      intro hq
      refine hcond ⟨?_, ?_, by exact_mod_cast hq.2.2⟩
      · have := (div_le_div_iff_of_pos_right (by norm_num : (0 : ℚ) < 2)).mp hq.1
        exact_mod_cast this
      · have := (div_le_div_iff_of_pos_right (by norm_num : (0 : ℚ) < 2)).mp hq.2.1
        exact_mod_cast this
    rw [if_neg hcq, if_neg hcond]
    norm_num

lemma Multi_cast (al be ga t s k : ℤ) (hk : t = s + 2 * k) :
    Multi (((al + 2 * be + ga : ℤ) : ℚ) / 2) (((al + ga : ℤ) : ℚ) / 2)
        (((al - ga : ℤ) : ℚ) / 2) ((t : ℚ) / 2) ((s : ℚ) / 2) =
      ((Mz al be ga t s : ℤ) : ℚ) / 2 := by
  have habs : |(((al - ga : ℤ) : ℚ)) / 2| = ((|al - ga| : ℤ) : ℚ) / 2 := by
    rw [abs_div, Int.cast_abs]
    norm_num
  have w11 : ((al + 2 * be + ga : ℤ) : ℚ) / 2 + |(((al - ga : ℤ) : ℚ)) / 2| =
      ((be + max al ga : ℤ) : ℚ) := by
    rw [habs]
    have h : (al + 2 * be + ga) + |al - ga| = 2 * (be + max al ga) := by
      rcases abs_cases (al - ga) with ⟨h1, h2⟩ | ⟨h1, h2⟩ <;>
        rcases max_cases al ga with ⟨h3, h4⟩ | ⟨h3, h4⟩ <;> omega
    have := congrArg (fun z : ℤ => ((z : ℚ)) / 2) h
    push_cast at this ⊢
    linarith
  have w12 : ((al + 2 * be + ga : ℤ) : ℚ) / 2 - |(((al - ga : ℤ) : ℚ)) / 2| =
      ((be + min al ga : ℤ) : ℚ) := by
    rw [habs]
    have h : (al + 2 * be + ga) - |al - ga| = 2 * (be + min al ga) := by
      rcases abs_cases (al - ga) with ⟨h1, h2⟩ | ⟨h1, h2⟩ <;>
        rcases min_cases al ga with ⟨h3, h4⟩ | ⟨h3, h4⟩ <;> omega
    have := congrArg (fun z : ℤ => ((z : ℚ)) / 2) h
    push_cast at this ⊢
    linarith
  have w21 : ((al + 2 * be + ga : ℤ) : ℚ) / 2 + ((al + ga : ℤ) : ℚ) / 2 + 1 =
      ((al + be + ga + 1 : ℤ) : ℚ) := by
    push_cast
    ring
  have w22 : ((al + 2 * be + ga : ℤ) : ℚ) / 2 - ((al + ga : ℤ) : ℚ) / 2 - 1 =
      ((be - 1 : ℤ) : ℚ) := by
    push_cast
    ring
  have w31 : ((al + ga : ℤ) : ℚ) / 2 + |(((al - ga : ℤ) : ℚ)) / 2| - 1 =
      ((max al ga - 1 : ℤ) : ℚ) := by
    rw [habs]
    have h : (al + ga) + |al - ga| = 2 * max al ga := by
      rcases abs_cases (al - ga) with ⟨h1, h2⟩ | ⟨h1, h2⟩ <;>
        rcases max_cases al ga with ⟨h3, h4⟩ | ⟨h3, h4⟩ <;> omega
    have := congrArg (fun z : ℤ => ((z : ℚ)) / 2) h
    push_cast at this ⊢
    linarith
  have w32 : ((al + ga : ℤ) : ℚ) / 2 - |(((al - ga : ℤ) : ℚ)) / 2| - 1 =
      ((min al ga - 1 : ℤ) : ℚ) := by
    rw [habs]
    have h : (al + ga) - |al - ga| = 2 * min al ga := by
      rcases abs_cases (al - ga) with ⟨h1, h2⟩ | ⟨h1, h2⟩ <;>
        rcases min_cases al ga with ⟨h3, h4⟩ | ⟨h3, h4⟩ <;> omega
    have := congrArg (fun z : ℤ => ((z : ℚ)) / 2) h
    push_cast at this ⊢
    linarith
  unfold Multi Mz
  rw [w11, w12, w21, w22, w31, w32, WTS_cast _ _ _ _ k hk, WTS_cast _ _ _ _ k hk,
    WTS_cast _ _ _ _ k hk]
  push_cast
  ring

/-! ## Bridging lemmas: pyInt, the grid, and the row lists -/

lemma pyInt_intCast (n : ℤ) : pyInt ((n : ℚ)) = n := by
  unfold pyInt
  split
  · exact Int.floor_intCast n
  · exact Int.ceil_intCast n

lemma pyInt_half {n : ℤ} (h : 0 ≤ n) : pyInt ((n : ℚ) / 2) = n / 2 := by
  have h2 : (0 : ℚ) ≤ (n : ℚ) / 2 :=
    div_nonneg (by exact_mod_cast h) (by norm_num)
  rw [pyInt_of_nonneg h2, show ((n : ℚ)) / 2 = ((n : ℤ) : ℚ) / ((2 : ℕ) : ℚ) by norm_num]
  exact Rat.floor_intCast_div_natCast n 2

/-- Both branches of the iteration grid, written uniformly over doubled
integers: for `d = 2·p1`, `e = 2·p2` with `0 ≤ e ≤ d`, the grid is
`(d%2 + 2k)/2` for `k = 0, …, d/2`. -/
lemma stGrid_doubled (d e : ℤ) (h0 : 0 ≤ e) (hed : e ≤ d) :
    stGrid ((d : ℚ) / 2) ((e : ℚ) / 2) =
      (List.range ((d / 2).toNat + 1)).map
        (fun (k : ℕ) => ((d % 2 + 2 * (k : ℤ) : ℤ) : ℚ) / 2) := by
  have hd0 : 0 ≤ d := le_trans h0 hed
  have hmax : max ((d : ℚ) / 2) ((e : ℚ) / 2) = (d : ℚ) / 2 := by
    apply max_eq_left
    rw [div_le_div_iff_of_pos_right (by norm_num : (0 : ℚ) < 2)]
    exact_mod_cast hed
  have h2p1 : pyInt (2 * ((d : ℚ) / 2)) = d := by
    rw [show 2 * ((d : ℚ) / 2) = ((d : ℤ) : ℚ) by push_cast; ring, pyInt_intCast]
  unfold stGrid
  rw [hmax, h2p1]
  by_cases hpar : d % 2 = 0
  · rw [if_pos hpar, pyInt_half hd0]
    unfold pyRange
    rw [show d / 2 + 1 - 0 + 1 - 1 = d / 2 + 1 by ring, Int.fdiv_one,
      show (d / 2 + 1).toNat = (d / 2).toNat + 1 by omega, List.map_map]
    apply List.map_congr_left
    intro a _
    simp only [Function.comp_apply, hpar]
    push_cast
    ring
  · have hpar1 : d % 2 = 1 := by omega
    rw [if_neg hpar]
    have hmul : pyInt ((d : ℚ) / 2 * 2) = d := by
      rw [show (d : ℚ) / 2 * 2 = ((d : ℤ) : ℚ) by push_cast; ring, pyInt_intCast]
    rw [hmul]
    unfold pyRange
    rw [show d + 2 - 1 + 2 - 1 = d + 2 by ring,
      Int.fdiv_eq_ediv _ (by norm_num : (0 : ℤ) ≤ 2),
      show (d + 2) / 2 = d / 2 + 1 by omega,
      show (d / 2 + 1).toNat = (d / 2).toNat + 1 by omega, List.map_map]
    apply List.map_congr_left
    intro a _
    simp only [Function.comp_apply, hpar1]

lemma list_range_map_sum {M : Type*} [AddCommMonoid M] (n : ℕ) (f : ℕ → M) :
    ((List.range n).map f).sum = ∑ i ∈ Finset.range n, f i := by
  induction n with
  | zero => simp
  | succ m ih =>
    rw [List.range_succ, Finset.sum_range_succ, List.map_append, List.sum_append, ih]
    simp

lemma sum_map_flatMap {α β γ : Type*} [AddCommMonoid γ] (l : List α) (f : α → List β)
    (g : β → γ) :
    ((l.flatMap f).map g).sum = (l.map (fun a => ((f a).map g).sum)).sum := by
  induction l with
  | nil => simp
  | cons a t ih => simp [List.flatMap_cons, ih]

lemma sum_map_filterMap {α β γ : Type*} [AddCommMonoid γ] (l : List α) (f : α → Option β)
    (g : β → γ) :
    ((l.filterMap f).map g).sum = (l.map (fun a => ((f a).map g).getD 0)).sum := by
  induction l with
  | nil => simp
  | cons a t ih => cases h : f a <;> simp [List.filterMap_cons, h, ih]

lemma addCum_map_dim (acc : ℚ) (l : List (ℚ × ℚ × ℤ × ℤ)) :
    (addCum acc l).map (·.dim) = l.map (fun r => r.2.2.2) := by
  induction l generalizing acc with
  | nil => rfl
  | cons a t ih =>
    obtain ⟨S, T, m, d⟩ := a
    simp only [addCum, List.map_cons, ih]

lemma mem_addCum {acc : ℚ} {l : List (ℚ × ℚ × ℤ × ℤ)} {r : STRow}
    (hr : r ∈ addCum acc l) :
    ∃ x ∈ l, r.S = x.1 ∧ r.T = x.2.1 ∧ r.mult = x.2.2.1 ∧ r.dim = x.2.2.2 := by
  induction l generalizing acc with
  | nil => simp [addCum] at hr
  | cons a t ih =>
    obtain ⟨S, T, m, d⟩ := a
    simp only [addCum, List.mem_cons] at hr
    rcases hr with h | h
    · exact ⟨(S, T, m, d), List.mem_cons_self .., by simp [h]⟩
    · obtain ⟨x, hx, hprops⟩ := ih h
      exact ⟨x, List.mem_cons_of_mem _ hx, hprops⟩

lemma mem_stPairs {p1 p2 p3 : ℚ} {g : List ℚ} {x : ℚ × ℚ × ℤ × ℤ}
    (hx : x ∈ stPairs p1 p2 p3 g) :
    x.1 ∈ g ∧ x.2.1 ∈ g ∧ Multi p1 p2 p3 x.2.1 x.1 ≠ 0 ∧
      x.2.2.1 = pyInt (Multi p1 p2 p3 x.2.1 x.1) ∧
      x.2.2.2 = pyInt (dimST x.1 x.2.1 (Multi p1 p2 p3 x.2.1 x.1)) := by
  unfold stPairs at hx
  rw [List.mem_flatMap] at hx
  obtain ⟨S, hS, hmem⟩ := hx
  rw [List.mem_filterMap] at hmem
  obtain ⟨T, hT, hopt⟩ := hmem
  by_cases hm : Multi p1 p2 p3 T S ≠ 0
  · rw [if_pos hm] at hopt
    obtain rfl := Option.some_injective _ hopt
    exact ⟨hS, hT, hm, rfl, rfl⟩
  · rw [if_neg hm] at hopt
    exact Option.noConfusion hopt

/-- The sum of the `dim` column over the produced rows, as the full grid
double sum of the exact `dimST` values (Python's `int(dim_st)` conversions
included via `pyInt`). -/
lemma rows_dim_sum (p1 p2 p3 : ℚ) (g : List ℚ) (acc : ℚ) :
    ((addCum acc (stPairs p1 p2 p3 g)).map (·.dim)).sum =
      (g.map (fun S => (g.map (fun T =>
        if Multi p1 p2 p3 T S ≠ 0 then pyInt (dimST S T (Multi p1 p2 p3 T S)) else 0)).sum)).sum := by
  rw [addCum_map_dim]
  unfold stPairs
  rw [sum_map_flatMap]
  congr 1
  apply List.map_congr_left
  intro S _
  rw [sum_map_filterMap]
  congr 1
  apply List.map_congr_left
  intro T _
  split_ifs with h <;> simp [h]

/-! ## Summation machinery for the dimension identity -/

/-- `Qz` viewed in `ℚ`. -/
def Qzq (x : ℤ) : ℚ := ((Qz x : ℤ) : ℚ)

/-- Prefix sums of `Qz` over `1, …, c`. -/
def SQ0 (c : ℤ) : ℚ := ∑ x ∈ Finset.Icc 1 c, Qzq x

/-- Prefix sums of `x·Qz x` over `1, …, c`. -/
def SQ1 (c : ℤ) : ℚ := ∑ x ∈ Finset.Icc 1 c, (x : ℚ) * Qzq x

/-- `(w+1)(w+2)(w+3)/6`, the value of `∑ (2S+1)(2T+1)·WTS` in one variable. -/
def Tq (w : ℤ) : ℚ := ((w : ℚ) + 1) * ((w : ℚ) + 2) * ((w : ℚ) + 3) / 6

/-- Induction principle for integers from a lower bound, in eliminator form:
`induction n, hn using intLeInduction`. -/
@[elab_as_elim]
lemma intLeInduction {m : ℤ} {P : ∀ n : ℤ, m ≤ n → Prop}
    (base : P m le_rfl)
    (succ : ∀ n (hn : m ≤ n), P n hn → P (n + 1) (Int.le_add_one hn)) :
    ∀ n (hn : m ≤ n), P n hn := by
  have H : ∀ k : ℤ, m ≤ k → ∀ hk : m ≤ k, P k hk := by
    refine Int.le_induction ?_ ?_
    · intro hk
      exact base
    · intro k hk ih hk1
      exact succ k hk (ih hk)
  exact fun n hn => H n hn hn

lemma Qz_of_le_one {x : ℤ} (h : x ≤ 1) : Qz x = 0 := by
  unfold Qz
  rcases lt_or_le 0 x with h0 | h0
  · have hx : x = 1 := le_antisymm h h0
    subst hx
    decide
  · rw [if_neg (not_lt.mpr h0)]

lemma Qz_even (k : ℤ) (hk : 0 < k) : Qz (2 * k) = k ^ 2 := by
  unfold Qz
  rw [if_pos (by omega)]
  have h : (2 * k) ^ 2 = k ^ 2 * 4 := by ring
  rw [h, Int.mul_ediv_cancel _ (by norm_num)]

lemma Qz_odd (k : ℤ) (hk : 0 ≤ k) : Qz (2 * k + 1) = k ^ 2 + k := by
  unfold Qz
  rw [if_pos (by omega)]
  have h : (2 * k + 1) ^ 2 = 1 + (k ^ 2 + k) * 4 := by ring
  rw [h, Int.add_mul_ediv_right _ _ (by norm_num : (4 : ℤ) ≠ 0)]
  norm_num

lemma Qzq_of_le_one {x : ℤ} (h : x ≤ 1) : Qzq x = 0 := by
  rw [Qzq, Qz_of_le_one h, Int.cast_zero]

lemma Qzq_even (k : ℤ) (hk : 0 < k) : Qzq (2 * k) = (k : ℚ) ^ 2 := by
  rw [Qzq, Qz_even k hk]
  push_cast
  ring

lemma Qzq_odd (k : ℤ) (hk : 0 ≤ k) : Qzq (2 * k + 1) = (k : ℚ) ^ 2 + (k : ℚ) := by
  rw [Qzq, Qz_odd k hk]
  push_cast
  ring

lemma SQ0_of_le_one {c : ℤ} (h : c ≤ 1) : SQ0 c = 0 := by
  rcases lt_or_le c 1 with h0 | h0
  · rw [SQ0, Finset.Icc_eq_empty (by omega), Finset.sum_empty]
  · have hc : c = 1 := le_antisymm h h0
    subst hc
    rw [SQ0, Finset.Icc_self, Finset.sum_singleton, Qzq_of_le_one le_rfl]

lemma SQ1_of_le_one {c : ℤ} (h : c ≤ 1) : SQ1 c = 0 := by
  rcases lt_or_le c 1 with h0 | h0
  · rw [SQ1, Finset.Icc_eq_empty (by omega), Finset.sum_empty]
  · have hc : c = 1 := le_antisymm h h0
    subst hc
    rw [SQ1, Finset.Icc_self, Finset.sum_singleton, Qzq_of_le_one le_rfl, mul_zero]

lemma sum_Icc_succ_top {M : Type*} [AddCommMonoid M] (a b : ℤ) (h : a ≤ b + 1) (f : ℤ → M) :
    ∑ x ∈ Finset.Icc a (b + 1), f x = (∑ x ∈ Finset.Icc a b, f x) + f (b + 1) := by
  have hins : Finset.Icc a (b + 1) = insert (b + 1) (Finset.Icc a b) := by
    ext x
    simp only [Finset.mem_Icc, Finset.mem_insert]
    omega
  rw [hins, Finset.sum_insert (by simp [Finset.mem_Icc]), add_comm]

lemma SQ0_succ (c : ℤ) : SQ0 (c + 1) = SQ0 c + Qzq (c + 1) := by
  rcases le_or_lt 0 c with h | h
  · rw [SQ0, SQ0, sum_Icc_succ_top 1 c (by omega)]
  · rw [SQ0_of_le_one (by omega), SQ0_of_le_one (by omega), Qzq_of_le_one (by omega)]
    ring

lemma SQ1_succ (c : ℤ) : SQ1 (c + 1) = SQ1 c + ((c : ℚ) + 1) * Qzq (c + 1) := by
  rcases le_or_lt 0 c with h | h
  · rw [SQ1, SQ1, sum_Icc_succ_top 1 c (by omega)]
    push_cast
    ring
  · rw [SQ1_of_le_one (by omega), SQ1_of_le_one (by omega), Qzq_of_le_one (by omega)]
    ring

/-- Closed form of `SQ0` (with the parity correction `c % 2`). -/
lemma SQ0_closed (c : ℤ) (hc : 0 ≤ c) :
    SQ0 c = (((c * (c + 1) * (2 * c + 1) : ℤ) : ℚ) / 6 - ((c + c % 2 : ℤ) : ℚ) / 2) / 4 := by
  induction c, hc using intLeInduction with
  | base =>
    rw [SQ0_of_le_one (by omega)]
    norm_num
  | succ n hn ih =>
    rw [SQ0_succ, ih]
    rcases Int.even_or_odd n with ⟨q, hq⟩ | ⟨q, hq⟩
    · have h1 : n % 2 = 0 := by omega
      have h2 : (n + 1) % 2 = 1 := by omega
      rw [h1, h2, show n + 1 = 2 * q + 1 by omega, Qzq_odd q (by omega)]
      subst hq
      push_cast
      ring
    · have h1 : n % 2 = 1 := by omega
      have h2 : (n + 1) % 2 = 0 := by omega
      rw [h1, h2, show n + 1 = 2 * (q + 1) by omega, Qzq_even (q + 1) (by omega)]
      subst hq
      push_cast
      ring

/-- Closed form of `SQ1` (with the parity correction `c % 2`). -/
lemma SQ1_closed (c : ℤ) (hc : 0 ≤ c) :
    SQ1 c = (((c * (c + 1) : ℤ) : ℚ) ^ 2 / 4 - (((c + c % 2 : ℤ) : ℚ) / 2) ^ 2) / 4 := by
  induction c, hc using intLeInduction with
  | base =>
    rw [SQ1_of_le_one (by omega)]
    norm_num
  | succ n hn ih =>
    rw [SQ1_succ, ih]
    rcases Int.even_or_odd n with ⟨q, hq⟩ | ⟨q, hq⟩
    · have h1 : n % 2 = 0 := by omega
      have h2 : (n + 1) % 2 = 1 := by omega
      rw [h1, h2, show n + 1 = 2 * q + 1 by omega, Qzq_odd q (by omega)]
      subst hq
      push_cast
      ring
    · have h1 : n % 2 = 1 := by omega
      have h2 : (n + 1) % 2 = 0 := by omega
      rw [h1, h2, show n + 1 = 2 * (q + 1) by omega, Qzq_even (q + 1) (by omega)]
      subst hq
      push_cast
      ring

/-- Telescoping evaluation of a sum from an explicit antiderivative. -/
lemma sum_telescope (f F : ℤ → ℚ) (hF : ∀ j, F (j + 1) - F j = f j) (lo hi : ℤ)
    (h : lo - 1 ≤ hi) :
    ∑ j ∈ Finset.Icc lo hi, f j = F (hi + 1) - F lo := by
  induction hi, h using intLeInduction with
  | base =>
    rw [Finset.Icc_eq_empty (by omega), Finset.sum_empty, show lo - 1 + 1 = lo by ring, sub_self]
  | succ n hn ih =>
    rw [sum_Icc_succ_top lo n (by omega), ih, ← hF (n + 1)]
    ring

lemma sum_Icc_Qzq (lo hi : ℤ) (h : lo - 1 ≤ hi) :
    ∑ x ∈ Finset.Icc lo hi, Qzq x = SQ0 hi - SQ0 (lo - 1) := by
  induction hi, h using intLeInduction with
  | base =>
    rw [Finset.Icc_eq_empty (by omega), Finset.sum_empty, sub_self]
  | succ n hn ih =>
    rw [sum_Icc_succ_top lo n (by omega), ih, SQ0_succ]
    ring

lemma sum_Icc_xQzq (lo hi : ℤ) (h : lo - 1 ≤ hi) :
    ∑ x ∈ Finset.Icc lo hi, (x : ℚ) * Qzq x = SQ1 hi - SQ1 (lo - 1) := by
  induction hi, h using intLeInduction with
  | base =>
    rw [Finset.Icc_eq_empty (by omega), Finset.sum_empty, sub_self]
  | succ n hn ih =>
    rw [sum_Icc_succ_top lo n (by omega), ih, SQ1_succ]
    push_cast
    ring

/-- A sum of `Qz` against an affine weight, via the prefix sums. -/
lemma sum_affine_Qzq (A B : ℚ) (lo hi : ℤ) (h : lo - 1 ≤ hi) :
    ∑ x ∈ Finset.Icc lo hi, (A + B * (x : ℚ)) * Qzq x =
      A * (SQ0 hi - SQ0 (lo - 1)) + B * (SQ1 hi - SQ1 (lo - 1)) := by
  have hsplit : ∀ x ∈ Finset.Icc lo hi,
      (A + B * (x : ℚ)) * Qzq x = A * Qzq x + B * ((x : ℚ) * Qzq x) := by
    intro x _
    ring
  rw [Finset.sum_congr rfl hsplit, Finset.sum_add_distrib, ← Finset.mul_sum, ← Finset.mul_sum,
    sum_Icc_Qzq lo hi h, sum_Icc_xQzq lo hi h]

/-- Shift reindexing of an interval sum. -/
lemma sum_Icc_shift {M : Type*} [AddCommMonoid M] (f : ℤ → M) (b lo hi : ℤ) :
    ∑ j ∈ Finset.Icc lo hi, f (j + b) = ∑ x ∈ Finset.Icc (lo + b) (hi + b), f x := by
  refine Finset.sum_nbij' (fun j => j + b) (fun x => x - b) ?_ ?_ ?_ ?_ (fun a _ => rfl) <;>
    · intro a ha
      simp only [Finset.mem_Icc] at ha ⊢
      omega

/-- Reflection reindexing of an interval sum. -/
lemma sum_Icc_reflect {M : Type*} [AddCommMonoid M] (f : ℤ → M) (c lo hi : ℤ) :
    ∑ j ∈ Finset.Icc lo hi, f (c - j) = ∑ x ∈ Finset.Icc (c - hi) (c - lo), f x := by
  refine Finset.sum_nbij' (fun j => c - j) (fun x => c - x) ?_ ?_ ?_ ?_ (fun a _ => rfl) <;>
    · intro a ha
      simp only [Finset.mem_Icc] at ha ⊢
      omega

/-- The `WTS2` body on the doubled grid, written in grid indices `i`, `j`
(`t = par + 2j`, `s = par + 2i`, `w1 = 2H + w2 + par`). -/
def bodyZ (w1 w2 par i j : ℤ) : ℤ :=
  2 * Qz (w2 + 2 - |j - i|) - 2 * Qz (w2 + 1 - par - i - j)
    + 2 * Qz (par + i + j - w1 - 1) - Qz (par + 2 * min i j - w1 + w2 + 1)

lemma inner_split (H w2 par i : ℤ) :
    ∑ j ∈ Finset.Icc 0 (H + w2),
        ((par + 2 * j + 1 : ℤ) : ℚ) * ((bodyZ (2 * H + w2 + par) w2 par i j : ℤ) : ℚ)
      = 2 * ∑ j ∈ Finset.Icc 0 (H + w2),
            ((par + 2 * j + 1 : ℤ) : ℚ) * Qzq (w2 + 2 - |j - i|)
        - 2 * ∑ j ∈ Finset.Icc 0 (H + w2),
            ((par + 2 * j + 1 : ℤ) : ℚ) * Qzq (w2 + 1 - par - i - j)
        + 2 * ∑ j ∈ Finset.Icc 0 (H + w2),
            ((par + 2 * j + 1 : ℤ) : ℚ) * Qzq (j + (par + i - (2 * H + w2 + par) - 1))
        - ∑ j ∈ Finset.Icc 0 (H + w2),
            ((par + 2 * j + 1 : ℤ) : ℚ) * Qzq (2 * (min i j - H) + 1) := by
  rw [Finset.mul_sum, Finset.mul_sum, Finset.mul_sum, ← Finset.sum_sub_distrib,
    ← Finset.sum_add_distrib, ← Finset.sum_sub_distrib]
  apply Finset.sum_congr rfl
  intro j hj
  simp only [bodyZ, Qzq]
  rw [show par + i + j - (2 * H + w2 + par) - 1 = j + (par + i - (2 * H + w2 + par) - 1) from by
        ring,
    show par + 2 * min i j - (2 * H + w2 + par) + w2 + 1 = 2 * (min i j - H) + 1 from by ring]
  push_cast
  ring

lemma A1_eval (H w2 par i : ℤ) (hi : 0 ≤ i) (hiK : i ≤ H + w2) :
    ∑ j ∈ Finset.Icc 0 (H + w2), ((par + 2 * j + 1 : ℤ) : ℚ) * Qzq (w2 + 2 - |j - i|) =
      ((par + 2 * i - 2 * w2 - 3 : ℤ) : ℚ) * (SQ0 (w2 + 2) - SQ0 (w2 + 1 - i))
        + 2 * (SQ1 (w2 + 2) - SQ1 (w2 + 1 - i))
        + (((par + 2 * w2 + 2 * i + 5 : ℤ) : ℚ) * (SQ0 (w2 + 1) - SQ0 (i + 1 - H))
            - 2 * (SQ1 (w2 + 1) - SQ1 (i + 1 - H))) := by
  have hset : Finset.Icc (0 : ℤ) (H + w2) = Finset.Icc 0 i ∪ Finset.Icc (i + 1) (H + w2) := by
    ext x
    simp only [Finset.mem_Icc, Finset.mem_union]
    omega
  have hdisj : Disjoint (Finset.Icc (0 : ℤ) i) (Finset.Icc (i + 1) (H + w2)) := by
    rw [Finset.disjoint_left]
    intro a ha hb
    simp only [Finset.mem_Icc] at ha hb
    omega
  rw [hset, Finset.sum_union hdisj]
  congr 1
  · have h1 : ∀ j ∈ Finset.Icc (0 : ℤ) i,
        ((par + 2 * j + 1 : ℤ) : ℚ) * Qzq (w2 + 2 - |j - i|)
          = (((par + 2 * i - 2 * w2 - 3 : ℤ) : ℚ) + 2 * ((j + (w2 + 2 - i) : ℤ) : ℚ))
              * Qzq (j + (w2 + 2 - i)) := by
      intro j hj
      simp only [Finset.mem_Icc] at hj
      rw [show w2 + 2 - |j - i| = j + (w2 + 2 - i) from by
            rw [abs_of_nonpos (by omega : j - i ≤ 0)]; ring]
      push_cast
      ring
    rw [Finset.sum_congr rfl h1,
      sum_Icc_shift (fun x => (((par + 2 * i - 2 * w2 - 3 : ℤ) : ℚ) + 2 * (x : ℚ)) * Qzq x)
        (w2 + 2 - i) 0 i,
      sum_affine_Qzq ((par + 2 * i - 2 * w2 - 3 : ℤ) : ℚ) 2 (0 + (w2 + 2 - i)) (i + (w2 + 2 - i))
        (by omega),
      show i + (w2 + 2 - i) = w2 + 2 from by ring,
      show 0 + (w2 + 2 - i) - 1 = w2 + 1 - i from by ring]
  · have h1 : ∀ j ∈ Finset.Icc (i + 1) (H + w2),
        ((par + 2 * j + 1 : ℤ) : ℚ) * Qzq (w2 + 2 - |j - i|)
          = (((par + 2 * w2 + 2 * i + 5 : ℤ) : ℚ) + (-2) * ((w2 + 2 + i - j : ℤ) : ℚ))
              * Qzq (w2 + 2 + i - j) := by
      intro j hj
      simp only [Finset.mem_Icc] at hj
      rw [show w2 + 2 - |j - i| = w2 + 2 + i - j from by
            rw [abs_of_nonneg (by omega : 0 ≤ j - i)]; ring]
      push_cast
      ring
    rw [Finset.sum_congr rfl h1,
      sum_Icc_reflect (fun x => (((par + 2 * w2 + 2 * i + 5 : ℤ) : ℚ) + (-2) * (x : ℚ)) * Qzq x)
        (w2 + 2 + i) (i + 1) (H + w2),
      sum_affine_Qzq ((par + 2 * w2 + 2 * i + 5 : ℤ) : ℚ) (-2) (w2 + 2 + i - (H + w2))
        (w2 + 2 + i - (i + 1)) (by omega),
      show w2 + 2 + i - (i + 1) = w2 + 1 from by ring,
      show w2 + 2 + i - (H + w2) - 1 = i + 1 - H from by ring]
    ring

lemma A2_eval (K c par : ℤ) (hK : -1 ≤ K) :
    ∑ j ∈ Finset.Icc 0 K, ((par + 2 * j + 1 : ℤ) : ℚ) * Qzq (c - j) =
      ((par + 2 * c + 1 : ℤ) : ℚ) * (SQ0 c - SQ0 (c - K - 1)) - 2 * (SQ1 c - SQ1 (c - K - 1)) := by
  have h1 : ∀ j ∈ Finset.Icc (0 : ℤ) K,
      ((par + 2 * j + 1 : ℤ) : ℚ) * Qzq (c - j)
        = (((par + 2 * c + 1 : ℤ) : ℚ) + (-2) * ((c - j : ℤ) : ℚ)) * Qzq (c - j) := by
    intro j hj
    push_cast
    ring
  rw [Finset.sum_congr rfl h1,
    sum_Icc_reflect (fun x => (((par + 2 * c + 1 : ℤ) : ℚ) + (-2) * (x : ℚ)) * Qzq x) c 0 K,
    sum_affine_Qzq ((par + 2 * c + 1 : ℤ) : ℚ) (-2) (c - K) (c - 0) (by omega),
    show c - (0 : ℤ) = c from by ring,
    show c - K - 1 = c - K - 1 from rfl]
  ring

lemma A3_eval (K b par : ℤ) (hK : -1 ≤ K) :
    ∑ j ∈ Finset.Icc 0 K, ((par + 2 * j + 1 : ℤ) : ℚ) * Qzq (j + b) =
      ((par - 2 * b + 1 : ℤ) : ℚ) * (SQ0 (K + b) - SQ0 (b - 1))
        + 2 * (SQ1 (K + b) - SQ1 (b - 1)) := by
  have h1 : ∀ j ∈ Finset.Icc (0 : ℤ) K,
      ((par + 2 * j + 1 : ℤ) : ℚ) * Qzq (j + b)
        = (((par - 2 * b + 1 : ℤ) : ℚ) + 2 * ((j + b : ℤ) : ℚ)) * Qzq (j + b) := by
    intro j hj
    push_cast
    ring
  rw [Finset.sum_congr rfl h1,
    sum_Icc_shift (fun x => (((par - 2 * b + 1 : ℤ) : ℚ) + 2 * (x : ℚ)) * Qzq x) b 0 K,
    sum_affine_Qzq ((par - 2 * b + 1 : ℤ) : ℚ) 2 (0 + b) (K + b) (by omega),
    show (0 : ℤ) + b - 1 = b - 1 from by ring]

lemma A4_eval (H par i K : ℤ) (hi : 0 ≤ i) (hiK : i ≤ K) :
    ∑ j ∈ Finset.Icc 0 K, ((par + 2 * j + 1 : ℤ) : ℚ) * Qzq (2 * (min i j - H) + 1) =
      (∑ j ∈ Finset.Icc 0 (i - 1), ((par + 2 * j + 1 : ℤ) : ℚ) * Qzq (2 * (j - H) + 1))
        + Qzq (2 * (i - H) + 1) * ∑ j ∈ Finset.Icc i K, ((par + 2 * j + 1 : ℤ) : ℚ) := by
  have hset : Finset.Icc (0 : ℤ) K = Finset.Icc 0 (i - 1) ∪ Finset.Icc i K := by
    ext x
    simp only [Finset.mem_Icc, Finset.mem_union]
    omega
  have hdisj : Disjoint (Finset.Icc (0 : ℤ) (i - 1)) (Finset.Icc i K) := by
    rw [Finset.disjoint_left]
    intro a ha hb
    simp only [Finset.mem_Icc] at ha hb
    omega
  rw [hset, Finset.sum_union hdisj]
  congr 1
  · apply Finset.sum_congr rfl
    intro j hj
    simp only [Finset.mem_Icc] at hj
    rw [min_eq_right (by omega : j ≤ i)]
  · have h1 : ∀ j ∈ Finset.Icc i K,
        ((par + 2 * j + 1 : ℤ) : ℚ) * Qzq (2 * (min i j - H) + 1)
          = Qzq (2 * (i - H) + 1) * ((par + 2 * j + 1 : ℤ) : ℚ) := by
      intro j hj
      simp only [Finset.mem_Icc] at hj
      rw [min_eq_left (by omega : i ≤ j)]
      ring
    rw [Finset.sum_congr rfl h1, ← Finset.mul_sum]

/-- Head region `i ≤ H`: the inner sum equals `2·Tq w2·(par+2i+1)`. -/
lemma innerHead (H w2 par i : ℤ) (hH : 0 ≤ H) (hw2 : -1 ≤ w2) (hpar : par = 0 ∨ par = 1)
    (hi : 0 ≤ i) (hiH : i ≤ H) (hiK : i ≤ H + w2) :
    ∑ j ∈ Finset.Icc 0 (H + w2), ((par + 2 * j + 1 : ℤ) : ℚ)
        * ((bodyZ (2 * H + w2 + par) w2 par i j : ℤ) : ℚ)
      = 2 * Tq w2 * ((par + 2 * i + 1 : ℤ) : ℚ) := by
  have hp0 : 0 ≤ par := by rcases hpar with rfl | rfl <;> omega
  have hp1 : par ≤ 1 := by rcases hpar with rfl | rfl <;> omega
  rw [inner_split H w2 par i, A1_eval H w2 par i hi hiK,
    A2_eval (H + w2) (w2 + 1 - par - i) par (by omega),
    A3_eval (H + w2) (par + i - (2 * H + w2 + par) - 1) par (by omega),
    A4_eval H par i (H + w2) hi hiK,
    show w2 + 1 - par - i - (H + w2) - 1 = -(par + i + H) from by ring,
    show H + w2 + (par + i - (2 * H + w2 + par) - 1) = i - H - 1 from by ring,
    show par + i - (2 * H + w2 + par) - 1 - 1 = i - 2 * H - w2 - 2 from by ring]
  rw [SQ0_of_le_one (show -(par + i + H) ≤ 1 by omega),
    SQ1_of_le_one (show -(par + i + H) ≤ 1 by omega),
    SQ0_of_le_one (show i - H - 1 ≤ 1 by omega),
    SQ1_of_le_one (show i - H - 1 ≤ 1 by omega),
    SQ0_of_le_one (show i - 2 * H - w2 - 2 ≤ 1 by omega),
    SQ1_of_le_one (show i - 2 * H - w2 - 2 ≤ 1 by omega),
    SQ0_of_le_one (show i + 1 - H ≤ 1 by omega),
    SQ1_of_le_one (show i + 1 - H ≤ 1 by omega),
    Qzq_of_le_one (show 2 * (i - H) + 1 ≤ 1 by omega),
    Finset.sum_eq_zero (fun j hj => by
      rw [Qzq_of_le_one (show 2 * (j - H) + 1 ≤ 1 from by
            simp only [Finset.mem_Icc] at hj
            omega),
        mul_zero])]
  rcases le_or_lt i (w2 - par) with hcase | hcase
  · rw [SQ0_closed (w2 + 2) (by omega), SQ1_closed (w2 + 2) (by omega),
      SQ0_closed (w2 + 1) (by omega), SQ1_closed (w2 + 1) (by omega),
      SQ0_closed (w2 + 1 - i) (by omega), SQ1_closed (w2 + 1 - i) (by omega),
      SQ0_closed (w2 + 1 - par - i) (by omega), SQ1_closed (w2 + 1 - par - i) (by omega)]
    simp only [Tq]
    rcases hpar with rfl | rfl <;> rcases Int.emod_two_eq w2 with hw | hw <;>
      rcases Int.emod_two_eq i with hi2 | hi2
    · rw [show (w2 + 2) % 2 = 0 from by omega, show (w2 + 1) % 2 = 1 from by omega,
        show (w2 + 1 - i) % 2 = 1 from by omega, show (w2 + 1 - 0 - i) % 2 = 1 from by omega]
      push_cast
      ring
    · rw [show (w2 + 2) % 2 = 0 from by omega, show (w2 + 1) % 2 = 1 from by omega,
        show (w2 + 1 - i) % 2 = 0 from by omega, show (w2 + 1 - 0 - i) % 2 = 0 from by omega]
      push_cast
      ring
    · rw [show (w2 + 2) % 2 = 1 from by omega, show (w2 + 1) % 2 = 0 from by omega,
        show (w2 + 1 - i) % 2 = 0 from by omega, show (w2 + 1 - 0 - i) % 2 = 0 from by omega]
      push_cast
      ring
    · rw [show (w2 + 2) % 2 = 1 from by omega, show (w2 + 1) % 2 = 0 from by omega,
        show (w2 + 1 - i) % 2 = 1 from by omega, show (w2 + 1 - 0 - i) % 2 = 1 from by omega]
      push_cast
      ring
    · rw [show (w2 + 2) % 2 = 0 from by omega, show (w2 + 1) % 2 = 1 from by omega,
        show (w2 + 1 - i) % 2 = 1 from by omega, show (w2 + 1 - 1 - i) % 2 = 0 from by omega]
      push_cast
      ring
    · rw [show (w2 + 2) % 2 = 0 from by omega, show (w2 + 1) % 2 = 1 from by omega,
        show (w2 + 1 - i) % 2 = 0 from by omega, show (w2 + 1 - 1 - i) % 2 = 1 from by omega]
      push_cast
      ring
    · rw [show (w2 + 2) % 2 = 1 from by omega, show (w2 + 1) % 2 = 0 from by omega,
        show (w2 + 1 - i) % 2 = 0 from by omega, show (w2 + 1 - 1 - i) % 2 = 1 from by omega]
      push_cast
      ring
    · rw [show (w2 + 2) % 2 = 1 from by omega, show (w2 + 1) % 2 = 0 from by omega,
        show (w2 + 1 - i) % 2 = 1 from by omega, show (w2 + 1 - 1 - i) % 2 = 0 from by omega]
      push_cast
      ring
  · rw [SQ0_of_le_one (show w2 + 1 - i ≤ 1 by omega),
      SQ1_of_le_one (show w2 + 1 - i ≤ 1 by omega),
      SQ0_of_le_one (show w2 + 1 - par - i ≤ 1 by omega),
      SQ1_of_le_one (show w2 + 1 - par - i ≤ 1 by omega),
      SQ0_closed (w2 + 2) (by omega), SQ1_closed (w2 + 2) (by omega),
      SQ0_closed (w2 + 1) (by omega), SQ1_closed (w2 + 1) (by omega)]
    simp only [Tq]
    rcases hpar with rfl | rfl <;> rcases Int.emod_two_eq w2 with hw | hw
    · rw [show (w2 + 2) % 2 = 0 from by omega, show (w2 + 1) % 2 = 1 from by omega]
      push_cast
      ring
    · rw [show (w2 + 2) % 2 = 1 from by omega, show (w2 + 1) % 2 = 0 from by omega]
      push_cast
      ring
    · rw [show (w2 + 2) % 2 = 0 from by omega, show (w2 + 1) % 2 = 1 from by omega]
      push_cast
      ring
    · rw [show (w2 + 2) % 2 = 1 from by omega, show (w2 + 1) % 2 = 0 from by omega]
      push_cast
      ring

/-- The antiderivative of `(par+2j+1)(j-H)(j-H+1)` in `j`. -/
def F4Lq (H par j : ℤ) : ℚ :=
  (H : ℚ) * (j : ℚ) / 3 - (par : ℚ) * (j : ℚ) / 3 + (H : ℚ) ^ 2 * (par : ℚ) * (j : ℚ)
    - (j : ℚ) ^ 2 / 2 + (H : ℚ) ^ 2 * (j : ℚ) ^ 2 - (H : ℚ) * (par : ℚ) * (j : ℚ) ^ 2
    - 4 * (H : ℚ) * (j : ℚ) ^ 3 / 3 + (par : ℚ) * (j : ℚ) ^ 3 / 3 + (j : ℚ) ^ 4 / 2

/-- The antiderivative of `par+2j+1` in `j`. -/
def FLinq (par j : ℤ) : ℚ := (j : ℚ) ^ 2 + (par : ℚ) * (j : ℚ)

/-- The tail polynomial: the value of the inner sum at `i = H + r`, `1 ≤ r ≤ w2`. -/
def P2q (H w2 r par : ℤ) : ℚ :=
  2 + 2 * (par : ℚ) + (r : ℚ) / 3 - 5 * (par : ℚ) * (r : ℚ) / 3 - 10 * (r : ℚ) ^ 2 / 3
    - (par : ℚ) * (r : ℚ) ^ 2 + 2 * (r : ℚ) ^ 3 / 3 + 2 * (par : ℚ) * (r : ℚ) ^ 3 / 3
    + (r : ℚ) ^ 4 / 3 + 11 * (w2 : ℚ) / 3 + 11 * (par : ℚ) * (w2 : ℚ) / 3
    + 10 * (w2 : ℚ) * (r : ℚ) / 3 - (par : ℚ) * (w2 : ℚ) * (r : ℚ)
    - 4 * (w2 : ℚ) * (r : ℚ) ^ 2 - (par : ℚ) * (w2 : ℚ) * (r : ℚ) ^ 2 + 2 * (w2 : ℚ) ^ 2
    + 2 * (par : ℚ) * (w2 : ℚ) ^ 2 + 3 * (w2 : ℚ) ^ 2 * (r : ℚ) - (w2 : ℚ) ^ 2 * (r : ℚ) ^ 2
    + (w2 : ℚ) ^ 3 / 3 + (par : ℚ) * (w2 : ℚ) ^ 3 / 3 + 2 * (w2 : ℚ) ^ 3 * (r : ℚ) / 3
    + 4 * (H : ℚ) - 10 * (H : ℚ) * (r : ℚ) / 3 - 2 * (H : ℚ) * (r : ℚ) ^ 2
    + 4 * (H : ℚ) * (r : ℚ) ^ 3 / 3 + 22 * (H : ℚ) * (w2 : ℚ) / 3
    - 2 * (H : ℚ) * (w2 : ℚ) * (r : ℚ) - 2 * (H : ℚ) * (w2 : ℚ) * (r : ℚ) ^ 2
    + 4 * (H : ℚ) * (w2 : ℚ) ^ 2 + 2 * (H : ℚ) * (w2 : ℚ) ^ 3 / 3

set_option maxHeartbeats 2000000 in
/-- Tail region `i = H + r`, `1 ≤ r ≤ w2`: the inner sum equals `P2q`. -/
lemma innerTail (H w2 par r : ℤ) (hH : 0 ≤ H) (hr : 1 ≤ r) (hrw : r ≤ w2)
    (hpar : par = 0 ∨ par = 1) :
    ∑ j ∈ Finset.Icc 0 (H + w2), ((par + 2 * j + 1 : ℤ) : ℚ)
        * ((bodyZ (2 * H + w2 + par) w2 par (H + r) j : ℤ) : ℚ)
      = P2q H w2 r par := by
  have hp0 : 0 ≤ par := by rcases hpar with rfl | rfl <;> omega
  have hp1 : par ≤ 1 := by rcases hpar with rfl | rfl <;> omega
  rw [inner_split H w2 par (H + r), A1_eval H w2 par (H + r) (by omega) (by omega),
    A2_eval (H + w2) (w2 + 1 - par - (H + r)) par (by omega),
    A3_eval (H + w2) (par + (H + r) - (2 * H + w2 + par) - 1) par (by omega),
    A4_eval H par (H + r) (H + w2) (by omega) (by omega),
    show w2 + 1 - par - (H + r) - (H + w2) - 1 = -(par + 2 * H + r) from by ring,
    show H + w2 + (par + (H + r) - (2 * H + w2 + par) - 1) = r - 1 from by ring,
    show par + (H + r) - (2 * H + w2 + par) - 1 - 1 = r - H - w2 - 2 from by ring,
    show H + r + 1 - H = r + 1 from by ring,
    show 2 * (H + r - H) + 1 = 2 * r + 1 from by ring]
  rw [SQ0_of_le_one (show -(par + 2 * H + r) ≤ 1 by omega),
    SQ1_of_le_one (show -(par + 2 * H + r) ≤ 1 by omega),
    SQ0_of_le_one (show r - H - w2 - 2 ≤ 1 by omega),
    SQ1_of_le_one (show r - H - w2 - 2 ≤ 1 by omega),
    show Qzq (2 * r + 1) = (r : ℚ) ^ 2 + (r : ℚ) from Qzq_odd r (by omega)]
  have hS4L : ∑ j ∈ Finset.Icc (0 : ℤ) (H + r - 1),
      ((par + 2 * j + 1 : ℤ) : ℚ) * Qzq (2 * (j - H) + 1)
        = F4Lq H par (H + r) - F4Lq H par H := by
    have hset : Finset.Icc (0 : ℤ) (H + r - 1)
        = Finset.Icc 0 (H - 1) ∪ Finset.Icc H (H + r - 1) := by
      ext x
      simp only [Finset.mem_Icc, Finset.mem_union]
      omega
    have hdisj : Disjoint (Finset.Icc (0 : ℤ) (H - 1)) (Finset.Icc H (H + r - 1)) := by
      rw [Finset.disjoint_left]
      intro a ha hb
      simp only [Finset.mem_Icc] at ha hb
      omega
    rw [hset, Finset.sum_union hdisj,
      Finset.sum_eq_zero (fun j hj => by
        rw [Qzq_of_le_one (show 2 * (j - H) + 1 ≤ 1 from by
              simp only [Finset.mem_Icc] at hj
              omega),
          mul_zero]),
      Finset.sum_congr rfl (fun j hj => by
        rw [Qzq_odd (j - H) (by
          simp only [Finset.mem_Icc] at hj
          omega)]),
      sum_telescope
        (fun j => ((par + 2 * j + 1 : ℤ) : ℚ) * (((j - H : ℤ) : ℚ) ^ 2 + ((j - H : ℤ) : ℚ)))
        (fun j => F4Lq H par j)
        (fun j => by
          simp only [F4Lq]
          push_cast
          ring)
        H (H + r - 1) (by omega),
      show H + r - 1 + 1 = H + r from by ring, zero_add]
  have hLin : ∑ j ∈ Finset.Icc (H + r) (H + w2), ((par + 2 * j + 1 : ℤ) : ℚ)
      = FLinq par (H + w2 + 1) - FLinq par (H + r) := by
    rw [sum_telescope (fun j => ((par + 2 * j + 1 : ℤ) : ℚ)) (fun j => FLinq par j)
      (fun j => by
        simp only [FLinq]
        push_cast
        ring)
      (H + r) (H + w2) (by omega)]
  rw [hS4L, hLin]
  rcases le_or_lt 1 (w2 + 1 - par - (H + r)) with hz | hz
  · rw [SQ0_closed (w2 + 2) (by omega), SQ1_closed (w2 + 2) (by omega),
      SQ0_closed (w2 + 1) (by omega), SQ1_closed (w2 + 1) (by omega),
      SQ0_closed (r + 1) (by omega), SQ1_closed (r + 1) (by omega),
      SQ0_closed (r - 1) (by omega), SQ1_closed (r - 1) (by omega),
      SQ0_closed (w2 + 1 - (H + r)) (by omega), SQ1_closed (w2 + 1 - (H + r)) (by omega),
      SQ0_closed (w2 + 1 - par - (H + r)) (by omega),
      SQ1_closed (w2 + 1 - par - (H + r)) (by omega)]
    simp only [P2q, F4Lq, FLinq]
    rcases hpar with rfl | rfl <;> rcases Int.emod_two_eq w2 with hw | hw <;>
      rcases Int.emod_two_eq r with hr2 | hr2 <;> rcases Int.emod_two_eq H with hh2 | hh2
    · rw [show (w2 + 2) % 2 = 0 from by omega, show (w2 + 1) % 2 = 1 from by omega,
        show (r + 1) % 2 = 1 from by omega, show (r - 1) % 2 = 1 from by omega,
        show (w2 + 1 - (H + r)) % 2 = 1 from by omega,
        show (w2 + 1 - 0 - (H + r)) % 2 = 1 from by omega]
      push_cast
      ring
    · rw [show (w2 + 2) % 2 = 0 from by omega, show (w2 + 1) % 2 = 1 from by omega,
        show (r + 1) % 2 = 1 from by omega, show (r - 1) % 2 = 1 from by omega,
        show (w2 + 1 - (H + r)) % 2 = 0 from by omega,
        show (w2 + 1 - 0 - (H + r)) % 2 = 0 from by omega]
      push_cast
      ring
    · rw [show (w2 + 2) % 2 = 0 from by omega, show (w2 + 1) % 2 = 1 from by omega,
        show (r + 1) % 2 = 0 from by omega, show (r - 1) % 2 = 0 from by omega,
        show (w2 + 1 - (H + r)) % 2 = 0 from by omega,
        show (w2 + 1 - 0 - (H + r)) % 2 = 0 from by omega]
      push_cast
      ring
    · rw [show (w2 + 2) % 2 = 0 from by omega, show (w2 + 1) % 2 = 1 from by omega,
        show (r + 1) % 2 = 0 from by omega, show (r - 1) % 2 = 0 from by omega,
        show (w2 + 1 - (H + r)) % 2 = 1 from by omega,
        show (w2 + 1 - 0 - (H + r)) % 2 = 1 from by omega]
      push_cast
      ring
    · rw [show (w2 + 2) % 2 = 1 from by omega, show (w2 + 1) % 2 = 0 from by omega,
        show (r + 1) % 2 = 1 from by omega, show (r - 1) % 2 = 1 from by omega,
        show (w2 + 1 - (H + r)) % 2 = 0 from by omega,
        show (w2 + 1 - 0 - (H + r)) % 2 = 0 from by omega]
      push_cast
      ring
    · rw [show (w2 + 2) % 2 = 1 from by omega, show (w2 + 1) % 2 = 0 from by omega,
        show (r + 1) % 2 = 1 from by omega, show (r - 1) % 2 = 1 from by omega,
        show (w2 + 1 - (H + r)) % 2 = 1 from by omega,
        show (w2 + 1 - 0 - (H + r)) % 2 = 1 from by omega]
      push_cast
      ring
    · rw [show (w2 + 2) % 2 = 1 from by omega, show (w2 + 1) % 2 = 0 from by omega,
        show (r + 1) % 2 = 0 from by omega, show (r - 1) % 2 = 0 from by omega,
        show (w2 + 1 - (H + r)) % 2 = 1 from by omega,
        show (w2 + 1 - 0 - (H + r)) % 2 = 1 from by omega]
      push_cast
      ring
    · rw [show (w2 + 2) % 2 = 1 from by omega, show (w2 + 1) % 2 = 0 from by omega,
        show (r + 1) % 2 = 0 from by omega, show (r - 1) % 2 = 0 from by omega,
        show (w2 + 1 - (H + r)) % 2 = 0 from by omega,
        show (w2 + 1 - 0 - (H + r)) % 2 = 0 from by omega]
      push_cast
      ring
    · rw [show (w2 + 2) % 2 = 0 from by omega, show (w2 + 1) % 2 = 1 from by omega,
        show (r + 1) % 2 = 1 from by omega, show (r - 1) % 2 = 1 from by omega,
        show (w2 + 1 - (H + r)) % 2 = 1 from by omega,
        show (w2 + 1 - 1 - (H + r)) % 2 = 0 from by omega]
      push_cast
      ring
    · rw [show (w2 + 2) % 2 = 0 from by omega, show (w2 + 1) % 2 = 1 from by omega,
        show (r + 1) % 2 = 1 from by omega, show (r - 1) % 2 = 1 from by omega,
        show (w2 + 1 - (H + r)) % 2 = 0 from by omega,
        show (w2 + 1 - 1 - (H + r)) % 2 = 1 from by omega]
      push_cast
      ring
    · rw [show (w2 + 2) % 2 = 0 from by omega, show (w2 + 1) % 2 = 1 from by omega,
        show (r + 1) % 2 = 0 from by omega, show (r - 1) % 2 = 0 from by omega,
        show (w2 + 1 - (H + r)) % 2 = 0 from by omega,
        show (w2 + 1 - 1 - (H + r)) % 2 = 1 from by omega]
      push_cast
      ring
    · rw [show (w2 + 2) % 2 = 0 from by omega, show (w2 + 1) % 2 = 1 from by omega,
        show (r + 1) % 2 = 0 from by omega, show (r - 1) % 2 = 0 from by omega,
        show (w2 + 1 - (H + r)) % 2 = 1 from by omega,
        show (w2 + 1 - 1 - (H + r)) % 2 = 0 from by omega]
      push_cast
      ring
    · rw [show (w2 + 2) % 2 = 1 from by omega, show (w2 + 1) % 2 = 0 from by omega,
        show (r + 1) % 2 = 1 from by omega, show (r - 1) % 2 = 1 from by omega,
        show (w2 + 1 - (H + r)) % 2 = 0 from by omega,
        show (w2 + 1 - 1 - (H + r)) % 2 = 1 from by omega]
      push_cast
      ring
    · rw [show (w2 + 2) % 2 = 1 from by omega, show (w2 + 1) % 2 = 0 from by omega,
        show (r + 1) % 2 = 1 from by omega, show (r - 1) % 2 = 1 from by omega,
        show (w2 + 1 - (H + r)) % 2 = 1 from by omega,
        show (w2 + 1 - 1 - (H + r)) % 2 = 0 from by omega]
      push_cast
      ring
    · rw [show (w2 + 2) % 2 = 1 from by omega, show (w2 + 1) % 2 = 0 from by omega,
        show (r + 1) % 2 = 0 from by omega, show (r - 1) % 2 = 0 from by omega,
        show (w2 + 1 - (H + r)) % 2 = 1 from by omega,
        show (w2 + 1 - 1 - (H + r)) % 2 = 0 from by omega]
      push_cast
      ring
    · rw [show (w2 + 2) % 2 = 1 from by omega, show (w2 + 1) % 2 = 0 from by omega,
        show (r + 1) % 2 = 0 from by omega, show (r - 1) % 2 = 0 from by omega,
        show (w2 + 1 - (H + r)) % 2 = 0 from by omega,
        show (w2 + 1 - 1 - (H + r)) % 2 = 1 from by omega]
      push_cast
      ring
  · rw [SQ0_of_le_one (show w2 + 1 - (H + r) ≤ 1 by omega),
      SQ1_of_le_one (show w2 + 1 - (H + r) ≤ 1 by omega),
      SQ0_of_le_one (show w2 + 1 - par - (H + r) ≤ 1 by omega),
      SQ1_of_le_one (show w2 + 1 - par - (H + r) ≤ 1 by omega),
      SQ0_closed (w2 + 2) (by omega), SQ1_closed (w2 + 2) (by omega),
      SQ0_closed (w2 + 1) (by omega), SQ1_closed (w2 + 1) (by omega),
      SQ0_closed (r + 1) (by omega), SQ1_closed (r + 1) (by omega),
      SQ0_closed (r - 1) (by omega), SQ1_closed (r - 1) (by omega)]
    simp only [P2q, F4Lq, FLinq]
    rcases hpar with rfl | rfl <;> rcases Int.emod_two_eq w2 with hw | hw <;>
      rcases Int.emod_two_eq r with hr2 | hr2
    · rw [show (w2 + 2) % 2 = 0 from by omega, show (w2 + 1) % 2 = 1 from by omega,
        show (r + 1) % 2 = 1 from by omega, show (r - 1) % 2 = 1 from by omega]
      push_cast
      ring
    · rw [show (w2 + 2) % 2 = 0 from by omega, show (w2 + 1) % 2 = 1 from by omega,
        show (r + 1) % 2 = 0 from by omega, show (r - 1) % 2 = 0 from by omega]
      push_cast
      ring
    · rw [show (w2 + 2) % 2 = 1 from by omega, show (w2 + 1) % 2 = 0 from by omega,
        show (r + 1) % 2 = 1 from by omega, show (r - 1) % 2 = 1 from by omega]
      push_cast
      ring
    · rw [show (w2 + 2) % 2 = 1 from by omega, show (w2 + 1) % 2 = 0 from by omega,
        show (r + 1) % 2 = 0 from by omega, show (r - 1) % 2 = 0 from by omega]
      push_cast
      ring
    · rw [show (w2 + 2) % 2 = 0 from by omega, show (w2 + 1) % 2 = 1 from by omega,
        show (r + 1) % 2 = 1 from by omega, show (r - 1) % 2 = 1 from by omega]
      push_cast
      ring
    · rw [show (w2 + 2) % 2 = 0 from by omega, show (w2 + 1) % 2 = 1 from by omega,
        show (r + 1) % 2 = 0 from by omega, show (r - 1) % 2 = 0 from by omega]
      push_cast
      ring
    · rw [show (w2 + 2) % 2 = 1 from by omega, show (w2 + 1) % 2 = 0 from by omega,
        show (r + 1) % 2 = 1 from by omega, show (r - 1) % 2 = 1 from by omega]
      push_cast
      ring
    · rw [show (w2 + 2) % 2 = 1 from by omega, show (w2 + 1) % 2 = 0 from by omega,
        show (r + 1) % 2 = 0 from by omega, show (r - 1) % 2 = 0 from by omega]
      push_cast
      ring

/-- The antiderivative of `(2i+1)²` in `i` (even-parity branch). -/
def FHead0q (i : ℤ) : ℚ := -(i : ℚ) / 3 + 4 * (i : ℚ) ^ 3 / 3

/-- The antiderivative of `(2i+2)²` in `i` (odd-parity branch). -/
def FHead1q (i : ℤ) : ℚ := 2 * (i : ℚ) / 3 + 2 * (i : ℚ) ^ 2 + 4 * (i : ℚ) ^ 3 / 3

/-- The antiderivative of `(2i+1)·P2q H w2 (i-H) 0` in `i`. -/
def FTail0q (H w2 i : ℤ) : ℚ :=
  -2 * (i : ℚ) / 3 - 11 * (i : ℚ) * (w2 : ℚ) / 9 - 2 * (i : ℚ) * (w2 : ℚ) ^ 2 / 3 - (i : ℚ) * (w2 : ℚ) ^ 3 / 9 - 11 * (i : ℚ) * (H : ℚ) / 9 - 4 * (i : ℚ) * (H : ℚ) * (w2 : ℚ) / 3 - (i : ℚ) * (H : ℚ) * (w2 : ℚ) ^ 2 / 3 - 4 * (i : ℚ) * (H : ℚ) ^ 2 / 3 - 2 * (i : ℚ) * (H : ℚ) ^ 2 * (w2 : ℚ) / 3 - 4 * (i : ℚ) * (H : ℚ) ^ 3 / 9 + 35 * (i : ℚ) ^ 2 / 18 + 2 * (i : ℚ) ^ 2 * (w2 : ℚ) + (i : ℚ) ^ 2 * (w2 : ℚ) ^ 2 / 2 + 2 * (i : ℚ) ^ 2 * (H : ℚ) + (i : ℚ) ^ 2 * (H : ℚ) * (w2 : ℚ) - 3 * (i : ℚ) ^ 2 * (H : ℚ) ^ 2 - 4 * (i : ℚ) ^ 2 * (H : ℚ) ^ 2 * (w2 : ℚ) - (i : ℚ) ^ 2 * (H : ℚ) ^ 2 * (w2 : ℚ) ^ 2 - 4 * (i : ℚ) ^ 2 * (H : ℚ) ^ 3 - 2 * (i : ℚ) ^ 2 * (H : ℚ) ^ 3 * (w2 : ℚ) - (i : ℚ) ^ 2 * (H : ℚ) ^ 4 + 8 * (i : ℚ) ^ 3 / 3 + 44 * (i : ℚ) ^ 3 * (w2 : ℚ) / 9 + 8 * (i : ℚ) ^ 3 * (w2 : ℚ) ^ 2 / 3 + 4 * (i : ℚ) ^ 3 * (w2 : ℚ) ^ 3 / 9 + 44 * (i : ℚ) ^ 3 * (H : ℚ) / 9 + 16 * (i : ℚ) ^ 3 * (H : ℚ) * (w2 : ℚ) / 3 + 4 * (i : ℚ) ^ 3 * (H : ℚ) * (w2 : ℚ) ^ 2 / 3 + 16 * (i : ℚ) ^ 3 * (H : ℚ) ^ 2 / 3 + 8 * (i : ℚ) ^ 3 * (H : ℚ) ^ 2 * (w2 : ℚ) / 3 + 16 * (i : ℚ) ^ 3 * (H : ℚ) ^ 3 / 9 - 37 * (i : ℚ) ^ 4 / 18 - 2 * (i : ℚ) ^ 4 * (w2 : ℚ) - (i : ℚ) ^ 4 * (w2 : ℚ) ^ 2 / 2 - 2 * (i : ℚ) ^ 4 * (H : ℚ) - (i : ℚ) ^ 4 * (H : ℚ) * (w2 : ℚ) - (i : ℚ) ^ 4 * (H : ℚ) ^ 2 + (i : ℚ) ^ 6 / 9

/-- The antiderivative of `(2i+2)·P2q H w2 (i-H) 1` in `i`. -/
def FTail1q (H w2 i : ℤ) : ℚ :=
  10 * (i : ℚ) / 3 + 37 * (i : ℚ) * (w2 : ℚ) / 9 + 5 * (i : ℚ) * (w2 : ℚ) ^ 2 / 3 + 2 * (i : ℚ) * (w2 : ℚ) ^ 3 / 9 - 2 * (i : ℚ) * (H : ℚ) / 9 - (i : ℚ) * (H : ℚ) * (w2 : ℚ) - (i : ℚ) * (H : ℚ) * (w2 : ℚ) ^ 2 / 3 - 7 * (i : ℚ) * (H : ℚ) ^ 2 - 17 * (i : ℚ) * (H : ℚ) ^ 2 * (w2 : ℚ) / 3 - (i : ℚ) * (H : ℚ) ^ 2 * (w2 : ℚ) ^ 2 - 46 * (i : ℚ) * (H : ℚ) ^ 3 / 9 - 2 * (i : ℚ) * (H : ℚ) ^ 3 * (w2 : ℚ) - (i : ℚ) * (H : ℚ) ^ 4 + 61 * (i : ℚ) ^ 2 / 9 + 59 * (i : ℚ) ^ 2 * (w2 : ℚ) / 6 + 9 * (i : ℚ) ^ 2 * (w2 : ℚ) ^ 2 / 2 + 2 * (i : ℚ) ^ 2 * (w2 : ℚ) ^ 3 / 3 + 25 * (i : ℚ) ^ 2 * (H : ℚ) / 3 + 6 * (i : ℚ) ^ 2 * (H : ℚ) * (w2 : ℚ) + (i : ℚ) ^ 2 * (H : ℚ) * (w2 : ℚ) ^ 2 - 3 * (i : ℚ) ^ 2 * (H : ℚ) ^ 2 * (w2 : ℚ) - (i : ℚ) ^ 2 * (H : ℚ) ^ 2 * (w2 : ℚ) ^ 2 - 10 * (i : ℚ) ^ 2 * (H : ℚ) ^ 3 / 3 - 2 * (i : ℚ) ^ 2 * (H : ℚ) ^ 3 * (w2 : ℚ) - (i : ℚ) ^ 2 * (H : ℚ) ^ 4 + (i : ℚ) ^ 3 / 3 + 29 * (i : ℚ) ^ 3 * (w2 : ℚ) / 9 + 7 * (i : ℚ) ^ 3 * (w2 : ℚ) ^ 2 / 3 + 4 * (i : ℚ) ^ 3 * (w2 : ℚ) ^ 3 / 9 + 50 * (i : ℚ) ^ 3 * (H : ℚ) / 9 + 6 * (i : ℚ) ^ 3 * (H : ℚ) * (w2 : ℚ) + 4 * (i : ℚ) ^ 3 * (H : ℚ) * (w2 : ℚ) ^ 2 / 3 + 6 * (i : ℚ) ^ 3 * (H : ℚ) ^ 2 + 8 * (i : ℚ) ^ 3 * (H : ℚ) ^ 2 * (w2 : ℚ) / 3 + 16 * (i : ℚ) ^ 3 * (H : ℚ) ^ 3 / 9 - 26 * (i : ℚ) ^ 4 / 9 - 5 * (i : ℚ) ^ 4 * (w2 : ℚ) / 2 - (i : ℚ) ^ 4 * (w2 : ℚ) ^ 2 / 2 - 3 * (i : ℚ) ^ 4 * (H : ℚ) - (i : ℚ) ^ 4 * (H : ℚ) * (w2 : ℚ) - (i : ℚ) ^ 4 * (H : ℚ) ^ 2 + (i : ℚ) ^ 5 / 3 + (i : ℚ) ^ 6 / 9

set_option maxHeartbeats 2000000 in
/-- The full double sum against the grid weights: `2·Tq w1·Tq w2`. -/
lemma Gsum (H w2 par : ℤ) (hH : 0 ≤ H) (hw2 : -1 ≤ w2) (hpar : par = 0 ∨ par = 1) :
    ∑ i ∈ Finset.Icc 0 (H + w2), ((par + 2 * i + 1 : ℤ) : ℚ) *
        ∑ j ∈ Finset.Icc 0 (H + w2), ((par + 2 * j + 1 : ℤ) : ℚ)
          * ((bodyZ (2 * H + w2 + par) w2 par i j : ℤ) : ℚ)
      = 2 * Tq (2 * H + w2 + par) * Tq w2 := by
  by_cases hw2e : w2 = -1
  · subst hw2e
    have hT : Tq (-1 : ℤ) = 0 := by
      simp [Tq]
    rw [Finset.sum_eq_zero (fun i hi => by
        have hmem : 0 ≤ i ∧ i ≤ H + -1 := by
          simpa only [Finset.mem_Icc] using hi
        rw [innerHead H (-1) par i hH (by omega) hpar (by omega) (by omega) (by omega), hT]
        ring), hT]
    ring
  · have hw20 : 0 ≤ w2 := by omega
    have hset : Finset.Icc (0 : ℤ) (H + w2)
        = Finset.Icc 0 H ∪ Finset.Icc (H + 1) (H + w2) := by
      ext x
      simp only [Finset.mem_Icc, Finset.mem_union]
      omega
    have hdisj : Disjoint (Finset.Icc (0 : ℤ) H) (Finset.Icc (H + 1) (H + w2)) := by
      rw [Finset.disjoint_left]
      intro a ha hb
      simp only [Finset.mem_Icc] at ha hb
      omega
    have hhead : ∑ i ∈ Finset.Icc (0 : ℤ) H, ((par + 2 * i + 1 : ℤ) : ℚ) *
          ∑ j ∈ Finset.Icc 0 (H + w2), ((par + 2 * j + 1 : ℤ) : ℚ)
            * ((bodyZ (2 * H + w2 + par) w2 par i j : ℤ) : ℚ)
        = ∑ i ∈ Finset.Icc (0 : ℤ) H, ((par + 2 * i + 1 : ℤ) : ℚ)
            * (2 * Tq w2 * ((par + 2 * i + 1 : ℤ) : ℚ)) := by
      apply Finset.sum_congr rfl
      intro i hi
      have hmem : 0 ≤ i ∧ i ≤ H := by
        simpa only [Finset.mem_Icc] using hi
      rw [innerHead H w2 par i hH hw2 hpar (by omega) (by omega) (by omega)]
    have htail : ∑ i ∈ Finset.Icc (H + 1) (H + w2), ((par + 2 * i + 1 : ℤ) : ℚ) *
          ∑ j ∈ Finset.Icc 0 (H + w2), ((par + 2 * j + 1 : ℤ) : ℚ)
            * ((bodyZ (2 * H + w2 + par) w2 par i j : ℤ) : ℚ)
        = ∑ i ∈ Finset.Icc (H + 1) (H + w2), ((par + 2 * i + 1 : ℤ) : ℚ)
            * P2q H w2 (i - H) par := by
      apply Finset.sum_congr rfl
      intro i hi
      have hmem : H + 1 ≤ i ∧ i ≤ H + w2 := by
        simpa only [Finset.mem_Icc] using hi
      have h2 := innerTail H w2 par (i - H) hH (by omega) (by omega) hpar
      rw [show H + (i - H) = i from by ring] at h2
      rw [h2]
    nth_rewrite 1 [hset]
    rw [Finset.sum_union hdisj, hhead, htail]
    rcases hpar with rfl | rfl
    · rw [sum_telescope
          (fun i => ((0 + 2 * i + 1 : ℤ) : ℚ) * (2 * Tq w2 * ((0 + 2 * i + 1 : ℤ) : ℚ)))
          (fun i => 2 * Tq w2 * FHead0q i)
          (fun j => by
            simp only [FHead0q]
            push_cast
            ring)
          0 H (by omega),
        sum_telescope
          (fun i => ((0 + 2 * i + 1 : ℤ) : ℚ) * P2q H w2 (i - H) 0)
          (fun i => FTail0q H w2 i)
          (fun j => by
            simp only [FTail0q, P2q]
            push_cast
            ring)
          (H + 1) (H + w2) (by omega)]
      simp only [Tq, FHead0q, FTail0q]
      push_cast
      ring
    · rw [sum_telescope
          (fun i => ((1 + 2 * i + 1 : ℤ) : ℚ) * (2 * Tq w2 * ((1 + 2 * i + 1 : ℤ) : ℚ)))
          (fun i => 2 * Tq w2 * FHead1q i)
          (fun j => by
            simp only [FHead1q]
            push_cast
            ring)
          0 H (by omega),
        sum_telescope
          (fun i => ((1 + 2 * i + 1 : ℤ) : ℚ) * P2q H w2 (i - H) 1)
          (fun i => FTail1q H w2 i)
          (fun j => by
            simp only [FTail1q, P2q]
            push_cast
            ring)
          (H + 1) (H + w2) (by omega)]
      simp only [Tq, FHead1q, FTail1q]
      push_cast
      ring


lemma WTS2_eq_bodyZ (H w2 par i j : ℤ) (hpar : par = 0 ∨ par = 1) (hi : 0 ≤ i)
    (hiK : i ≤ H + w2) (hj : 0 ≤ j) (hjK : j ≤ H + w2) (hH : 0 ≤ H) :
    WTS2 (2 * H + w2 + par) w2 (par + 2 * j) (par + 2 * i)
      = bodyZ (2 * H + w2 + par) w2 par i j := by
  have hp0 : 0 ≤ par := by rcases hpar with rfl | rfl <;> omega
  have hp1 : par ≤ 1 := by rcases hpar with rfl | rfl <;> omega
  unfold WTS2 bodyZ
  rw [if_pos (⟨by omega, by omega, by omega⟩ :
      par + 2 * j ≤ 2 * H + w2 + par + w2 ∧ par + 2 * i ≤ 2 * H + w2 + par + w2 ∧
        w2 ≤ 2 * H + w2 + par)]
  have habs : |par + 2 * j - (par + 2 * i)| / 2 = |j - i| := by
    rw [show par + 2 * j - (par + 2 * i) = 2 * (j - i) from by ring, abs_mul, abs_two,
      Int.mul_ediv_cancel_left _ two_ne_zero]
  have hsum : (par + 2 * j + (par + 2 * i)) / 2 = par + i + j := by omega
  have hmin : min (par + 2 * j) (par + 2 * i) = par + 2 * min i j := by
    rcases le_total i j with h | h
    · rw [min_eq_right (by omega : par + 2 * i ≤ par + 2 * j), min_eq_left h]
    · rw [min_eq_left (by omega : par + 2 * j ≤ par + 2 * i), min_eq_right h]
  rw [habs, hsum, hmin,
    show w2 + 1 - (par + i + j) = w2 + 1 - par - i - j from by ring]

set_option maxHeartbeats 800000 in
/-- The grid-weighted double sum of `WTS2` over the full iteration grid
(cap `d/2`), for any admissible `(w1, w2)` with `w1 + w2 ≤ d` of matching
parity: it equals `2·Tq w1·Tq w2`. -/
lemma Gsum_WTS2 (w1 w2 d : ℤ) (hw : w2 ≤ w1) (hw2 : -1 ≤ w2) (hd : w1 + w2 ≤ d)
    (hpar : (w1 + w2) % 2 = d % 2) (hd0 : 0 ≤ d) :
    ∑ i ∈ Finset.Icc 0 (d / 2), ∑ j ∈ Finset.Icc 0 (d / 2),
        ((d % 2 + 2 * i + 1 : ℤ) : ℚ) * (((d % 2 + 2 * j + 1 : ℤ) : ℚ)
          * ((WTS2 w1 w2 (d % 2 + 2 * j) (d % 2 + 2 * i) : ℤ) : ℚ))
      = 2 * Tq w1 * Tq w2 := by
  rcases lt_or_le (w1 + w2) 0 with hneg | hpos
  · have hw2n : w2 = -1 := by omega
    subst hw2n
    rw [Finset.sum_eq_zero (fun i hi => Finset.sum_eq_zero (fun j hj => by
      have hmi : 0 ≤ i ∧ i ≤ d / 2 := by simpa only [Finset.mem_Icc] using hi
      have hmj : 0 ≤ j ∧ j ≤ d / 2 := by simpa only [Finset.mem_Icc] using hj
      rw [show WTS2 w1 (-1) (d % 2 + 2 * j) (d % 2 + 2 * i) = 0 from by
        unfold WTS2
        rw [if_neg]
        intro hcond
        omega]
      norm_num))]
    have hT : Tq (-1 : ℤ) = 0 := by
      simp [Tq]
    rw [hT]
    ring
  · obtain ⟨H, rfl⟩ : ∃ H, w1 = 2 * H + w2 + d % 2 :=
      ⟨(w1 - w2 - d % 2) / 2, by omega⟩
    have hH : 0 ≤ H := by omega
    have hsub : Finset.Icc (0 : ℤ) (H + w2) ⊆ Finset.Icc 0 (d / 2) := by
      intro x hx
      simp only [Finset.mem_Icc] at hx ⊢
      omega
    have hWzero : ∀ t s : ℤ, 2 * H + w2 + d % 2 + w2 < t ∨ 2 * H + w2 + d % 2 + w2 < s →
        WTS2 (2 * H + w2 + d % 2) w2 t s = 0 := by
      intro t s hts
      unfold WTS2
      rw [if_neg]
      intro hcond
      rcases hts with h | h <;> omega
    have hstep : ∀ i ∈ Finset.Icc (0 : ℤ) (H + w2),
        ∑ j ∈ Finset.Icc (0 : ℤ) (d / 2),
            ((d % 2 + 2 * i + 1 : ℤ) : ℚ) * (((d % 2 + 2 * j + 1 : ℤ) : ℚ)
              * ((WTS2 (2 * H + w2 + d % 2) w2 (d % 2 + 2 * j) (d % 2 + 2 * i) : ℤ) : ℚ))
          = ((d % 2 + 2 * i + 1 : ℤ) : ℚ) * ∑ j ∈ Finset.Icc (0 : ℤ) (H + w2),
              ((d % 2 + 2 * j + 1 : ℤ) : ℚ)
                * ((bodyZ (2 * H + w2 + d % 2) w2 (d % 2) i j : ℤ) : ℚ) := by
      intro i hi
      have hmi : 0 ≤ i ∧ i ≤ H + w2 := by simpa only [Finset.mem_Icc] using hi
      have hvan : ∀ j ∈ Finset.Icc (0 : ℤ) (d / 2), j ∉ Finset.Icc (0 : ℤ) (H + w2) →
          ((d % 2 + 2 * i + 1 : ℤ) : ℚ) * (((d % 2 + 2 * j + 1 : ℤ) : ℚ)
            * ((WTS2 (2 * H + w2 + d % 2) w2 (d % 2 + 2 * j) (d % 2 + 2 * i) : ℤ) : ℚ)) = 0 := by
        intro j hj hnj
        have hmj : 0 ≤ j ∧ j ≤ d / 2 := by simpa only [Finset.mem_Icc] using hj
        have hnj2 : ¬ (0 ≤ j ∧ j ≤ H + w2) := by simpa only [Finset.mem_Icc] using hnj
        rw [hWzero (d % 2 + 2 * j) (d % 2 + 2 * i) (Or.inl (by omega))]
        norm_num
      rw [← Finset.sum_subset hsub hvan]
      have hcg : ∑ j ∈ Finset.Icc (0 : ℤ) (H + w2),
          ((d % 2 + 2 * i + 1 : ℤ) : ℚ) * (((d % 2 + 2 * j + 1 : ℤ) : ℚ)
            * ((WTS2 (2 * H + w2 + d % 2) w2 (d % 2 + 2 * j) (d % 2 + 2 * i) : ℤ) : ℚ))
          = ∑ j ∈ Finset.Icc (0 : ℤ) (H + w2),
              ((d % 2 + 2 * i + 1 : ℤ) : ℚ) * (((d % 2 + 2 * j + 1 : ℤ) : ℚ)
                * ((bodyZ (2 * H + w2 + d % 2) w2 (d % 2) i j : ℤ) : ℚ)) := by
        apply Finset.sum_congr rfl
        intro j hj
        have hmj : 0 ≤ j ∧ j ≤ H + w2 := by simpa only [Finset.mem_Icc] using hj
        rw [WTS2_eq_bodyZ H w2 (d % 2) i j (Int.emod_two_eq d) (by omega) (by omega)
          (by omega) (by omega) hH]
      rw [hcg, Finset.mul_sum]
    have hvanouter : ∀ i ∈ Finset.Icc (0 : ℤ) (d / 2), i ∉ Finset.Icc (0 : ℤ) (H + w2) →
        ∑ j ∈ Finset.Icc (0 : ℤ) (d / 2),
            ((d % 2 + 2 * i + 1 : ℤ) : ℚ) * (((d % 2 + 2 * j + 1 : ℤ) : ℚ)
              * ((WTS2 (2 * H + w2 + d % 2) w2 (d % 2 + 2 * j) (d % 2 + 2 * i) : ℤ) : ℚ)) = 0 := by
      intro i hi hni
      have hmi : 0 ≤ i ∧ i ≤ d / 2 := by simpa only [Finset.mem_Icc] using hi
      have hni2 : ¬ (0 ≤ i ∧ i ≤ H + w2) := by simpa only [Finset.mem_Icc] using hni
      apply Finset.sum_eq_zero
      intro j hj
      rw [hWzero (d % 2 + 2 * j) (d % 2 + 2 * i) (Or.inr (by omega))]
      norm_num
    rw [← Finset.sum_subset hsub hvanouter, Finset.sum_congr rfl hstep,
      Gsum H w2 (d % 2) hH hw2 (Int.emod_two_eq d)]


/-- The grid-weighted double sum of `Mz` over the iteration grid equals the
three-product combination of `Tq` values. -/
lemma Mz_grid_sum (al be ga : ℤ) (hal : 0 ≤ al) (hbe : 0 ≤ be) (hga : 0 ≤ ga) :
    ∑ i ∈ Finset.Icc 0 ((al + 2 * be + ga) / 2),
        ∑ j ∈ Finset.Icc 0 ((al + 2 * be + ga) / 2),
          (((al + 2 * be + ga) % 2 + 2 * i + 1 : ℤ) : ℚ)
            * ((((al + 2 * be + ga) % 2 + 2 * j + 1 : ℤ) : ℚ)
              * ((Mz al be ga ((al + 2 * be + ga) % 2 + 2 * j)
                    ((al + 2 * be + ga) % 2 + 2 * i) : ℤ) : ℚ))
      = 2 * Tq (be + max al ga) * Tq (be + min al ga)
        - 2 * Tq (al + be + ga + 1) * Tq (be - 1)
        - 2 * Tq (max al ga - 1) * Tq (min al ga - 1) := by
  have hpt : ∀ i ∈ Finset.Icc (0 : ℤ) ((al + 2 * be + ga) / 2),
      ∑ j ∈ Finset.Icc (0 : ℤ) ((al + 2 * be + ga) / 2),
          (((al + 2 * be + ga) % 2 + 2 * i + 1 : ℤ) : ℚ)
            * ((((al + 2 * be + ga) % 2 + 2 * j + 1 : ℤ) : ℚ)
              * ((Mz al be ga ((al + 2 * be + ga) % 2 + 2 * j)
                    ((al + 2 * be + ga) % 2 + 2 * i) : ℤ) : ℚ))
        = (∑ j ∈ Finset.Icc (0 : ℤ) ((al + 2 * be + ga) / 2),
              (((al + 2 * be + ga) % 2 + 2 * i + 1 : ℤ) : ℚ)
                * ((((al + 2 * be + ga) % 2 + 2 * j + 1 : ℤ) : ℚ)
                  * ((WTS2 (be + max al ga) (be + min al ga)
                        ((al + 2 * be + ga) % 2 + 2 * j)
                        ((al + 2 * be + ga) % 2 + 2 * i) : ℤ) : ℚ)))
          - (∑ j ∈ Finset.Icc (0 : ℤ) ((al + 2 * be + ga) / 2),
              (((al + 2 * be + ga) % 2 + 2 * i + 1 : ℤ) : ℚ)
                * ((((al + 2 * be + ga) % 2 + 2 * j + 1 : ℤ) : ℚ)
                  * ((WTS2 (al + be + ga + 1) (be - 1)
                        ((al + 2 * be + ga) % 2 + 2 * j)
                        ((al + 2 * be + ga) % 2 + 2 * i) : ℤ) : ℚ)))
          - (∑ j ∈ Finset.Icc (0 : ℤ) ((al + 2 * be + ga) / 2),
              (((al + 2 * be + ga) % 2 + 2 * i + 1 : ℤ) : ℚ)
                * ((((al + 2 * be + ga) % 2 + 2 * j + 1 : ℤ) : ℚ)
                  * ((WTS2 (max al ga - 1) (min al ga - 1)
                        ((al + 2 * be + ga) % 2 + 2 * j)
                        ((al + 2 * be + ga) % 2 + 2 * i) : ℤ) : ℚ))) := by
    intro i hi
    rw [← Finset.sum_sub_distrib, ← Finset.sum_sub_distrib]
    apply Finset.sum_congr rfl
    intro j hj
    simp only [Mz]
    push_cast
    ring
  rw [Finset.sum_congr rfl hpt, Finset.sum_sub_distrib, Finset.sum_sub_distrib,
    Gsum_WTS2 (be + max al ga) (be + min al ga) (al + 2 * be + ga) (by omega) (by omega)
      (by omega) (by omega) (by omega),
    Gsum_WTS2 (al + be + ga + 1) (be - 1) (al + 2 * be + ga) (by omega) (by omega)
      (by omega) (by omega) (by omega),
    Gsum_WTS2 (max al ga - 1) (min al ga - 1) (al + 2 * be + ga) (by omega) (by omega)
      (by omega) (by omega) (by omega)]

/-- The three-product `Tq` combination equals one sixth of the `dimsu4`
numerator product. -/
lemma Tq_dim_identity (al be ga : ℤ) :
    2 * Tq (be + max al ga) * Tq (be + min al ga) - 2 * Tq (al + be + ga + 1) * Tq (be - 1)
      - 2 * Tq (max al ga - 1) * Tq (min al ga - 1)
    = (((al + 1) * (al + be + 2) * (al + be + ga + 3) * (be + 1) * (be + ga + 2)
        * (ga + 1) : ℤ) : ℚ) / 6 := by
  rcases le_total ga al with h | h
  · rw [max_eq_left h, min_eq_right h]
    simp only [Tq]
    push_cast
    ring
  · rw [max_eq_right h, min_eq_left h]
    simp only [Tq]
    push_cast
    ring

lemma Qz_emod_two {x : ℤ} (h : x % 2 = 1) : Qz x % 2 = 0 := by
  rcases le_or_lt x 1 with h0 | h0
  · rw [Qz_of_le_one h0]
    rfl
  · obtain ⟨k, hk, hk0⟩ : ∃ k, x = 2 * k + 1 ∧ 0 ≤ k := ⟨x / 2, by omega, by omega⟩
    rw [hk, Qz_odd k hk0]
    have heven : Even (k ^ 2 + k) := by
      have h2 : k ^ 2 + k = k * (k + 1) := by ring
      rw [h2]
      exact Int.even_mul_succ_self k
    obtain ⟨r, hr⟩ := heven
    omega

lemma WTS2_emod_two (w1 w2 t s : ℤ) (h : (min t s - w1 + w2 + 1) % 2 = 1) :
    WTS2 w1 w2 t s % 2 = 0 := by
  unfold WTS2
  split
  · have := Qz_emod_two h
    omega
  · rfl

/-- On the matching-parity grid every `Mz` value is even. -/
lemma Mz_even (al be ga t s : ℤ) (hta : (t + al + ga) % 2 = 0) (hsa : (s + al + ga) % 2 = 0) :
    Mz al be ga t s % 2 = 0 := by
  have h1 := WTS2_emod_two (be + max al ga) (be + min al ga) t s (by omega)
  have h2 := WTS2_emod_two (al + be + ga + 1) (be - 1) t s (by omega)
  have h3 := WTS2_emod_two (max al ga - 1) (min al ga - 1) t s (by omega)
  simp only [Mz]
  omega

lemma sum_range_eq_sum_Icc {M : Type*} [AddCommMonoid M] (n : ℕ) (g : ℤ → M) :
    ∑ k ∈ Finset.range n, g (k : ℤ) = ∑ x ∈ Finset.Icc (0 : ℤ) ((n : ℤ) - 1), g x := by
  induction n with
  | zero => simp
  | succ m ih =>
    rw [Finset.sum_range_succ, ih,
      show ((m + 1 : ℕ) : ℤ) - 1 = ((m : ℤ) - 1) + 1 from by push_cast; ring,
      sum_Icc_succ_top 0 ((m : ℤ) - 1) (by omega),
      show ((m : ℤ) - 1) + 1 = (m : ℤ) from by ring]

/-- Divisibility of the `dimsu4` numerator by `12`, via residues. -/
lemma dvd_twelve_dimprod (al be ga : ℤ) :
    (12 : ℤ) ∣ (al + 1) * (al + be + 2) * (al + be + ga + 3) * (be + 1) * (be + ga + 2)
      * (ga + 1) := by
  have h3 : (3 : ℤ) ∣ (al + 1) * (al + be + 2) * (al + be + ga + 3) * (be + 1) * (be + ga + 2)
      * (ga + 1) := by
    have hall : ∀ x y z : ZMod 3,
        (x + 1) * (x + y + 2) * (x + y + z + 3) * (y + 1) * (y + z + 2) * (z + 1) = 0 := by
      decide
    have hz : (((al + 1) * (al + be + 2) * (al + be + ga + 3) * (be + 1) * (be + ga + 2)
        * (ga + 1) : ℤ) : ZMod 3) = 0 := by
      push_cast
      exact hall (al : ZMod 3) (be : ZMod 3) (ga : ZMod 3)
    exact_mod_cast (ZMod.intCast_zmod_eq_zero_iff_dvd _ 3).mp hz
  have h4 : (4 : ℤ) ∣ (al + 1) * (al + be + 2) * (al + be + ga + 3) * (be + 1) * (be + ga + 2)
      * (ga + 1) := by
    have hall : ∀ x y z : ZMod 4,
        (x + 1) * (x + y + 2) * (x + y + z + 3) * (y + 1) * (y + z + 2) * (z + 1) = 0 := by
      decide
    have hz : (((al + 1) * (al + be + 2) * (al + be + ga + 3) * (be + 1) * (be + ga + 2)
        * (ga + 1) : ℤ) : ZMod 4) = 0 := by
      push_cast
      exact hall (al : ZMod 4) (be : ZMod 4) (ga : ZMod 4)
    exact_mod_cast (ZMod.intCast_zmod_eq_zero_iff_dvd _ 4).mp hz
  omega

/-- One cell of the enumeration table: `int(dim_st)` when the multiplicity is
nonzero, else `0` (the value the `dim` column contributes at `(S, T) =
((d%2+2x)/2, (d%2+2y)/2)`). -/
def cellTerm (al be ga x y : ℤ) : ℤ :=
  if Multi (((al + 2 * be + ga : ℤ) : ℚ) / 2) (((al + ga : ℤ) : ℚ) / 2)
        (((al - ga : ℤ) : ℚ) / 2)
        ((((al + 2 * be + ga) % 2 + 2 * y : ℤ) : ℚ) / 2)
        ((((al + 2 * be + ga) % 2 + 2 * x : ℤ) : ℚ) / 2) ≠ 0
    then pyInt (dimST ((((al + 2 * be + ga) % 2 + 2 * x : ℤ) : ℚ) / 2)
        ((((al + 2 * be + ga) % 2 + 2 * y : ℤ) : ℚ) / 2)
        (Multi (((al + 2 * be + ga : ℤ) : ℚ) / 2) (((al + ga : ℤ) : ℚ) / 2)
          (((al - ga : ℤ) : ℚ) / 2)
          ((((al + 2 * be + ga) % 2 + 2 * y : ℤ) : ℚ) / 2)
          ((((al + 2 * be + ga) % 2 + 2 * x : ℤ) : ℚ) / 2)))
    else 0

/-- Each grid cell of the enumeration, as an exact integer: the `int(dim_st)`
value is `(s+1)(t+1)·(Mz/2)` on the doubled grid, whether or not the
multiplicity vanishes. -/
lemma dim_term_eval (al be ga i j : ℤ) :
    cellTerm al be ga i j
    = ((al + 2 * be + ga) % 2 + 2 * i + 1) * ((al + 2 * be + ga) % 2 + 2 * j + 1)
        * (Mz al be ga ((al + 2 * be + ga) % 2 + 2 * j) ((al + 2 * be + ga) % 2 + 2 * i) / 2) := by
  have hM := Multi_cast al be ga ((al + 2 * be + ga) % 2 + 2 * j)
    ((al + 2 * be + ga) % 2 + 2 * i) (j - i) (by ring)
  have hev := Mz_even al be ga ((al + 2 * be + ga) % 2 + 2 * j)
    ((al + 2 * be + ga) % 2 + 2 * i) (by omega) (by omega)
  obtain ⟨mu, hmu⟩ : ∃ mu, Mz al be ga ((al + 2 * be + ga) % 2 + 2 * j)
      ((al + 2 * be + ga) % 2 + 2 * i) = 2 * mu :=
    ⟨Mz al be ga ((al + 2 * be + ga) % 2 + 2 * j) ((al + 2 * be + ga) % 2 + 2 * i) / 2, by omega⟩
  simp only [cellTerm, hM, hmu]
  by_cases h0 : mu = 0
  · subst h0
    rw [if_neg (by norm_num)]
    norm_num
  · rw [if_pos (by
      rw [show ((2 * mu : ℤ) : ℚ) / 2 = (mu : ℚ) from by push_cast; ring]
      exact_mod_cast h0)]
    rw [show dimST ((((al + 2 * be + ga) % 2 + 2 * i : ℤ) : ℚ) / 2)
          ((((al + 2 * be + ga) % 2 + 2 * j : ℤ) : ℚ) / 2) (((2 * mu : ℤ) : ℚ) / 2)
        = ((((al + 2 * be + ga) % 2 + 2 * i + 1) * ((al + 2 * be + ga) % 2 + 2 * j + 1)
            * mu : ℤ) : ℚ) from by
        simp only [dimST]
        push_cast
        ring,
      pyInt_intCast, Int.mul_ediv_cancel_left mu two_ne_zero]

set_option maxHeartbeats 800000 in
/-- The sum of the `dim` column over the produced table equals the exact
`dimsu4` value, for every chain-ordered label. -/
lemma rowsOf_dim_sum (f1 f2 f3 f4 : ℤ) (h21 : f2 ≤ f1) (h32 : f3 ≤ f2) (h43 : f4 ≤ f3) :
    ((((rowsOf f1 f2 f3 f4).map (·.dim)).sum : ℤ) : ℚ) = dimsu4 f1 f2 f3 f4 := by
  obtain ⟨al, be, ga, hal, hbe, hga, e1, e2, e3, e4⟩ :
      ∃ al be ga : ℤ, 0 ≤ al ∧ 0 ≤ be ∧ 0 ≤ ga
        ∧ f1 + f2 - f3 - f4 = al + 2 * be + ga
        ∧ f1 - f2 + f3 - f4 = al + ga
        ∧ f1 - f2 - f3 + f4 = al - ga
        ∧ (f1 - f2 + 1) * (f1 - f3 + 2) * (f1 - f4 + 3) * (f2 - f3 + 1) * (f2 - f4 + 2)
            * (f3 - f4 + 1)
          = (al + 1) * (al + be + 2) * (al + be + ga + 3) * (be + 1) * (be + ga + 2)
            * (ga + 1) :=
    ⟨f1 - f2, f2 - f3, f3 - f4, by omega, by omega, by omega, by ring, by ring, by ring, by ring⟩
  simp only [rowsOf, p1Of, p2Of, p3Of, dimsu4]
  rw [e1, e2, e3, e4, rows_dim_sum, stGrid_doubled (al + 2 * be + ga) (al + ga) (by omega)
    (by omega)]
  simp only [List.map_map, list_range_map_sum, Function.comp_apply]
  have hcell : ∀ x y : ℤ,
      (if Multi (((al + 2 * be + ga : ℤ) : ℚ) / 2) (((al + ga : ℤ) : ℚ) / 2)
            (((al - ga : ℤ) : ℚ) / 2)
            ((((al + 2 * be + ga) % 2 + 2 * y : ℤ) : ℚ) / 2)
            ((((al + 2 * be + ga) % 2 + 2 * x : ℤ) : ℚ) / 2) ≠ 0
        then pyInt (dimST ((((al + 2 * be + ga) % 2 + 2 * x : ℤ) : ℚ) / 2)
            ((((al + 2 * be + ga) % 2 + 2 * y : ℤ) : ℚ) / 2)
            (Multi (((al + 2 * be + ga : ℤ) : ℚ) / 2) (((al + ga : ℤ) : ℚ) / 2)
              (((al - ga : ℤ) : ℚ) / 2)
              ((((al + 2 * be + ga) % 2 + 2 * y : ℤ) : ℚ) / 2)
              ((((al + 2 * be + ga) % 2 + 2 * x : ℤ) : ℚ) / 2)))
        else 0)
      = cellTerm al be ga x y := fun x y => rfl
  simp only [hcell]
  rw [sum_range_eq_sum_Icc (((al + 2 * be + ga) / 2).toNat + 1)
      (fun x => ∑ y ∈ Finset.range (((al + 2 * be + ga) / 2).toNat + 1),
        cellTerm al be ga x (y : ℤ)),
    show ((((al + 2 * be + ga) / 2).toNat + 1 : ℕ) : ℤ) - 1 = (al + 2 * be + ga) / 2 from by
      omega]
  have hinner : ∀ x ∈ Finset.Icc (0 : ℤ) ((al + 2 * be + ga) / 2),
      (∑ y ∈ Finset.range (((al + 2 * be + ga) / 2).toNat + 1), cellTerm al be ga x (y : ℤ))
      = ∑ y ∈ Finset.Icc (0 : ℤ) ((al + 2 * be + ga) / 2),
          ((al + 2 * be + ga) % 2 + 2 * x + 1) * ((al + 2 * be + ga) % 2 + 2 * y + 1)
            * (Mz al be ga ((al + 2 * be + ga) % 2 + 2 * y)
                ((al + 2 * be + ga) % 2 + 2 * x) / 2) := by
    intro x hx
    rw [sum_range_eq_sum_Icc (((al + 2 * be + ga) / 2).toNat + 1)
        (fun y => cellTerm al be ga x y),
      show ((((al + 2 * be + ga) / 2).toNat + 1 : ℕ) : ℤ) - 1 = (al + 2 * be + ga) / 2 from by
        omega]
    exact Finset.sum_congr rfl (fun y hy => dim_term_eval al be ga x y)
  rw [Finset.sum_congr rfl hinner]
  have hcast : ∀ x ∈ Finset.Icc (0 : ℤ) ((al + 2 * be + ga) / 2),
      ((∑ y ∈ Finset.Icc (0 : ℤ) ((al + 2 * be + ga) / 2),
          ((al + 2 * be + ga) % 2 + 2 * x + 1) * ((al + 2 * be + ga) % 2 + 2 * y + 1)
            * (Mz al be ga ((al + 2 * be + ga) % 2 + 2 * y)
                ((al + 2 * be + ga) % 2 + 2 * x) / 2) : ℤ) : ℚ)
      = (∑ y ∈ Finset.Icc (0 : ℤ) ((al + 2 * be + ga) / 2),
          (((al + 2 * be + ga) % 2 + 2 * x + 1 : ℤ) : ℚ)
            * ((((al + 2 * be + ga) % 2 + 2 * y + 1 : ℤ) : ℚ)
              * ((Mz al be ga ((al + 2 * be + ga) % 2 + 2 * y)
                    ((al + 2 * be + ga) % 2 + 2 * x) : ℤ) : ℚ))) / 2 := by
    intro x hx
    rw [Int.cast_sum, Finset.sum_div]
    apply Finset.sum_congr rfl
    intro y hy
    have hev := Mz_even al be ga ((al + 2 * be + ga) % 2 + 2 * y)
      ((al + 2 * be + ga) % 2 + 2 * x) (by omega) (by omega)
    obtain ⟨mu, hmu⟩ : ∃ mu, Mz al be ga ((al + 2 * be + ga) % 2 + 2 * y)
        ((al + 2 * be + ga) % 2 + 2 * x) = 2 * mu :=
      ⟨Mz al be ga ((al + 2 * be + ga) % 2 + 2 * y) ((al + 2 * be + ga) % 2 + 2 * x) / 2,
        by omega⟩
    rw [hmu, Int.mul_ediv_cancel_left mu two_ne_zero]
    push_cast
    ring
  rw [Int.cast_sum, Finset.sum_congr rfl hcast, ← Finset.sum_div,
    Mz_grid_sum al be ga hal hbe hga, Tq_dim_identity al be ga]
  rw [div_div]
  norm_num

/-- The reported dimension is the exact value of the rational `dimsu4`
formula (no truncation occurs) and is positive, for every chain-ordered
label. -/
lemma pyInt_dimsu4 (f1 f2 f3 f4 : ℤ) (h21 : f2 ≤ f1) (h32 : f3 ≤ f2) (h43 : f4 ≤ f3) :
    ((pyInt (dimsu4 f1 f2 f3 f4) : ℤ) : ℚ) = dimsu4 f1 f2 f3 f4
      ∧ 0 < pyInt (dimsu4 f1 f2 f3 f4) := by
  obtain ⟨u, hu⟩ : ∃ u, (f1 - f2 + 1) * (f1 - f3 + 2) * (f1 - f4 + 3) * (f2 - f3 + 1)
      * (f2 - f4 + 2) * (f3 - f4 + 1) = 12 * u := by
    obtain ⟨u, hu⟩ : (12 : ℤ) ∣ (f1 - f2 + 1) * (f1 - f3 + 2) * (f1 - f4 + 3) * (f2 - f3 + 1)
        * (f2 - f4 + 2) * (f3 - f4 + 1) := by
      rw [show (f1 - f2 + 1) * (f1 - f3 + 2) * (f1 - f4 + 3) * (f2 - f3 + 1) * (f2 - f4 + 2)
            * (f3 - f4 + 1)
          = ((f1 - f2) + 1) * ((f1 - f2) + (f2 - f3) + 2) * ((f1 - f2) + (f2 - f3) + (f3 - f4) + 3)
            * ((f2 - f3) + 1) * ((f2 - f3) + (f3 - f4) + 2) * ((f3 - f4) + 1) from by ring]
      exact dvd_twelve_dimprod (f1 - f2) (f2 - f3) (f3 - f4)
    exact ⟨u, hu⟩
  have hupos : 0 < u := by
    have hP : 0 < 12 * u := by
      rw [← hu]
      have c1 : 0 < f1 - f2 + 1 := by omega
      have c2 : 0 < f1 - f3 + 2 := by omega
      have c3 : 0 < f1 - f4 + 3 := by omega
      have c4 : 0 < f2 - f3 + 1 := by omega
      have c5 : 0 < f2 - f4 + 2 := by omega
      have c6 : 0 < f3 - f4 + 1 := by omega
      exact mul_pos (mul_pos (mul_pos (mul_pos (mul_pos c1 c2) c3) c4) c5) c6
    omega
  have hval : dimsu4 f1 f2 f3 f4 = ((u : ℤ) : ℚ) := by
    simp only [dimsu4]
    rw [hu]
    push_cast
    ring
  rw [hval, pyInt_intCast]
  exact ⟨rfl, hupos⟩

/-! ## Concrete evaluation at the label (2, 1, 1, 0) -/

lemma pyInt_ofNat (n : ℕ) : pyInt ((n : ℚ)) = n := by
  rw [show ((n : ℚ)) = (((n : ℤ)) : ℚ) by push_cast; rfl, pyInt_intCast]

lemma info_2110_eval : infoOf 2 1 1 0 =
    { f1 := 2, f2 := 1, f3 := 1, f4 := 0, p1 := 1, p2 := 1, p3 := 0,
      alpha := 1, beta := 0, gamma := 1, casimir := 32, dimension := 15 } := by
  unfold infoOf
  rw [show dimsu4 2 1 1 0 = ((15 : ℤ) : ℚ) by norm_num [dimsu4], pyInt_intCast]
  norm_num [p1Of, p2Of, p3Of, cas2su4]

lemma grid_2110_eval : stGrid (p1Of 2 1 1 0) (p2Of 2 1 1 0) = [0, 1] := by
  rw [show p1Of 2 1 1 0 = ((2 : ℤ) : ℚ) / 2 by norm_num [p1Of],
    show p2Of 2 1 1 0 = ((2 : ℤ) : ℚ) / 2 by norm_num [p2Of],
    stGrid_doubled 2 2 (by norm_num) (le_refl 2)]
  norm_num [List.range_succ]

lemma pyInt_eval {q : ℚ} {n : ℤ} (h0 : 0 ≤ q) (h1 : (n : ℚ) ≤ q) (h2 : q < n + 1) :
    pyInt q = n := by
  rw [pyInt_of_nonneg h0]
  rw [Int.floor_eq_iff]
  exact ⟨h1, by exact_mod_cast h2⟩

lemma Multi_2110_eval (t s : ℤ) (hk : (t - s) % 2 = 0) :
    Multi 1 1 0 ((t : ℚ) / 2) ((s : ℚ) / 2) = ((Mz 1 0 1 t s : ℤ) : ℚ) / 2 := by
  have e := Multi_cast 1 0 1 t s ((t - s) / 2) (by omega)
  convert e using 2 <;> norm_num

lemma rows_2110_eval : rowsOf 2 1 1 0 =
    [⟨0, 1, 1, 3, 3⟩, ⟨1, 0, 1, 3, 6⟩, ⟨1, 1, 1, 9, 15⟩] := by
  have m00 : Multi 1 1 0 0 0 = 0 := by
    have h := Multi_2110_eval 0 0 (by norm_num)
    rw [show Mz 1 0 1 0 0 = 0 from by decide] at h
    norm_num at h
    exact h
  have m01 : Multi 1 1 0 1 0 = 1 := by
    have h := Multi_2110_eval 2 0 (by norm_num)
    rw [show Mz 1 0 1 2 0 = 2 from by decide] at h
    norm_num at h
    exact h
  have m10 : Multi 1 1 0 0 1 = 1 := by
    have h := Multi_2110_eval 0 2 (by norm_num)
    rw [show Mz 1 0 1 0 2 = 2 from by decide] at h
    norm_num at h
    exact h
  have m11 : Multi 1 1 0 1 1 = 1 := by
    have h := Multi_2110_eval 2 2 (by norm_num)
    rw [show Mz 1 0 1 2 2 = 2 from by decide] at h
    norm_num at h
    exact h
  unfold rowsOf
  rw [grid_2110_eval, show p1Of 2 1 1 0 = 1 by norm_num [p1Of],
    show p2Of 2 1 1 0 = 1 by norm_num [p2Of],
    show p3Of 2 1 1 0 = 0 by norm_num [p3Of]]
  unfold stPairs
  simp only [List.flatMap_cons, List.flatMap_nil, List.filterMap_cons, List.filterMap_nil,
    m00, m01, m10, m11]
  norm_num [addCum, dimST]
  rw [show pyInt (1 : ℚ) = 1 from pyInt_eval (by norm_num) (by norm_num) (by norm_num)]
  norm_num
  rw [show pyInt (3 : ℚ) = 3 from pyInt_eval (by norm_num) (by norm_num) (by norm_num),
    show pyInt (6 : ℚ) = 6 from pyInt_eval (by norm_num) (by norm_num) (by norm_num),
    show pyInt (9 : ℚ) = 9 from pyInt_eval (by norm_num) (by norm_num) (by norm_num),
    show pyInt (15 : ℚ) = 15 from pyInt_eval (by norm_num) (by norm_num) (by norm_num)]
  norm_num

/-! ## Helper lemmas about the computation's control flow -/

lemma racah_of_violated {f1 f2 f3 f4 : ℤ} (h : f3 < f4 ∨ f2 < f3 ∨ f1 < f2)
    (v : Bool) : racah_su4_to_st f1 f2 f3 f4 v =
      .error (.valueError "Young tableau condition violated: f1 ≥ f2 ≥ f3 ≥ f4 required") := by
  simp [racah_su4_to_st, h]

lemma racah_verbose_of_ok {f1 f2 f3 f4 : ℤ} (h : ¬(f3 < f4 ∨ f2 < f3 ∨ f1 < f2)) :
    racah_su4_to_st f1 f2 f3 f4 true = .error (.nameError "display") := by
  simp [racah_su4_to_st, h]

lemma racah_false_of_ok {f1 f2 f3 f4 : ℤ} (h : ¬(f3 < f4 ∨ f2 < f3 ∨ f1 < f2)) :
    racah_su4_to_st f1 f2 f3 f4 false = .ok (infoOf f1 f2 f3 f4, rowsOf f1 f2 f3 f4) := by
  simp [racah_su4_to_st, h]

/-! ## Claim theorems: validation, error handling and the concrete case -/

/-- C5: the Label Transformer raises the `InvalidTableau` condition (the
`ValueError` raise site) exactly when `f4 > f3` or `f3 > f2` or `f2 > f1`,
propagating immediately with no partial result; in particular the input
`(1, 2, 0, 0)` raises it. -/
theorem claim_C5_invalid_tableau :
    (∀ (f1 f2 f3 f4 : ℤ) (v : Bool),
      (∃ msg, racah_su4_to_st f1 f2 f3 f4 v = .error (.valueError msg)) ↔
        (f3 < f4 ∨ f2 < f3 ∨ f1 < f2)) ∧
    (∀ v : Bool, ∃ msg, racah_su4_to_st 1 2 0 0 v = .error (.valueError msg)) := by
  constructor
  · intro f1 f2 f3 f4 v
    constructor
    · rintro ⟨msg, hmsg⟩
      by_contra h
      cases v
      · rw [racah_false_of_ok h] at hmsg
        exact Except.noConfusion hmsg
      · rw [racah_verbose_of_ok h] at hmsg
        injection hmsg with h'
        exact PyErr.noConfusion h'
    · intro h
      exact ⟨_, racah_of_violated h v⟩
  · intro v
    exact ⟨_, racah_of_violated (by omega) v⟩

/-- C6 (counterexample): the input `(0, 0, 0, -1)` satisfies the
non-increasing chain but has `f4 < 0`, and the computation nevertheless
succeeds and returns a table instead of failing with an admissibility
error. -/
theorem claim_C6_counterexample :
    ((0 : ℤ) ≥ 0 ∧ (0 : ℤ) ≥ 0 ∧ (0 : ℤ) ≥ -1 ∧ (-1 : ℤ) < 0) ∧
    (racah_su4_to_st 0 0 0 (-1) false).isOk = true := by
  refine ⟨by norm_num, ?_⟩
  rw [racah_false_of_ok (by norm_num)]
  rfl

/-- C6 (amended): the core accepts every integer label satisfying the
non-increasing chain `f1 ≥ f2 ≥ f3 ≥ f4`, with no sign requirement on `f4`;
only the ordering is validated, and the computation (with `verbose=False`)
always returns a table for such labels. -/
theorem claim_C6_amended (f1 f2 f3 f4 : ℤ)
    (h12 : f2 ≤ f1) (h23 : f3 ≤ f2) (h34 : f4 ≤ f3) :
    (racah_su4_to_st f1 f2 f3 f4 false).isOk = true := by
  rw [racah_false_of_ok (by omega)]
  rfl

theorem claim_C6_amended_witness :
    (0 : ℤ) ≤ 0 ∧ (0 : ℤ) ≤ 0 ∧ (-1 : ℤ) ≤ 0 ∧
      (racah_su4_to_st 0 0 0 (-1) false).isOk = true :=
  ⟨le_refl 0, le_refl 0, by norm_num,
    claim_C6_amended 0 0 0 (-1) (le_refl 0) (le_refl 0) (by norm_num)⟩

/-- C2 (code evaluated at the failing input): `racah_su4_to_st` has exactly
one failure condition besides the `verbose` `NameError` — the
Young-tableau ordering check.  After enumeration it never compares the
summed dimension of the rows with the SU(4) dimension: with
`verbose=False` it returns the table if and only if the ordering holds, so
no `DimensionMismatch`-style hard failure exists in the code. -/
theorem claim_C2_no_dimension_check (f1 f2 f3 f4 : ℤ) :
    (racah_su4_to_st f1 f2 f3 f4 false).isOk = true ↔
      ¬(f3 < f4 ∨ f2 < f3 ∨ f1 < f2) := by
  constructor
  · intro hok
    by_contra h
    rw [racah_of_violated h] at hok
    exact Bool.noConfusion hok
  · intro h
    rw [racah_false_of_ok h]
    rfl

/-- C10: with the default `verbose=True`, every run that passes validation
fails with the `NameError` from the undefined name `display` after the
result tables are built, and the tables are returned only when
`verbose=False` is passed explicitly. -/
theorem claim_C10_verbose_fails (f1 f2 f3 f4 : ℤ)
    (h : ¬(f3 < f4 ∨ f2 < f3 ∨ f1 < f2)) :
    racah_su4_to_st f1 f2 f3 f4 = .error (.nameError "display") ∧
    (∀ v : Bool, (racah_su4_to_st f1 f2 f3 f4 v).isOk = true → v = false) := by
  refine ⟨racah_verbose_of_ok h, ?_⟩
  intro v hok
  cases v
  · rfl
  · rw [racah_verbose_of_ok h] at hok
    exact Bool.noConfusion hok

theorem claim_C10_verbose_fails_witness :
    ¬((1 : ℤ) < 0 ∨ (1 : ℤ) < 1 ∨ (2 : ℤ) < 1) ∧
      racah_su4_to_st 2 1 1 0 = .error (.nameError "display") :=
  ⟨by norm_num, (claim_C10_verbose_fails 2 1 1 0 (by norm_num)).1⟩

/-- C3: the multiplicity kernel agrees with the spec's three-layer
reference definition (`specQ`/`specWeightMult`/`specMultiplicity`, written
with a genuine floor) at every argument, in particular at every evaluated
`(S, T)` pair. -/
theorem claim_C3_kernel_matches_spec (x w1 w2 T S p1 p2 p3 : ℚ) :
    specQ x = Q x ∧ specWeightMult w1 w2 T S = WTS w1 w2 T S ∧
      specMultiplicity p1 p2 p3 T S = Multi p1 p2 p3 T S := by
  have hq : ∀ y : ℚ, specQ y = Q y := by
    intro y
    rw [Q_eq_floor]
    rfl
  have hw : ∀ a b c d : ℚ, specWeightMult a b c d = WTS a b c d := by
    intro a b c d
    unfold specWeightMult WTS
    simp only [hq]
  refine ⟨hq x, hw w1 w2 T S, ?_⟩
  unfold specMultiplicity Multi
  simp only [hw]

lemma mem_stGrid_doubled (d e : ℤ) (h0 : 0 ≤ e) (hed : e ≤ d) (q : ℚ) :
    q ∈ stGrid ((d : ℚ) / 2) ((e : ℚ) / 2) ↔
      ∃ x : ℤ, 0 ≤ x ∧ x ≤ d ∧ x % 2 = d % 2 ∧ q = (x : ℚ) / 2 := by
  rw [stGrid_doubled d e h0 hed]
  simp only [List.mem_map, List.mem_range]
  constructor
  · rintro ⟨k, hk, rfl⟩
    exact ⟨d % 2 + 2 * (k : ℤ), by omega, by omega, by omega, rfl⟩
  · rintro ⟨x, hx0, hxd, hxp, rfl⟩
    refine ⟨((x - d % 2) / 2).toNat, by omega, ?_⟩
    have hx : (d % 2 + 2 * ((((x - d % 2) / 2).toNat : ℤ))) = x := by omega
    rw [hx]

/-- C4: for admissible labels, `2·p1 = f1+f2−f3−f4` is an exact integer `d`;
if `d` is even, S and T range over the integers from 0 to `max(p1,p2)`, and
if `d` is odd over the half-integers from 1/2 to `max(p1,p2)` in steps of 1;
both loops draw from the same grid, so every returned `S` and `T` is
non-negative and all rows share the single parity class of `d`. -/
theorem claim_C4_grid_parity (f1 f2 f3 f4 : ℤ)
    (h12 : f2 ≤ f1) (h23 : f3 ≤ f2) (h34 : f4 ≤ f3) :
    (pyInt (2 * p1Of f1 f2 f3 f4) = f1 + f2 - f3 - f4) ∧
    (∀ q ∈ stGrid (p1Of f1 f2 f3 f4) (p2Of f1 f2 f3 f4),
      0 ≤ q ∧ q ≤ max (p1Of f1 f2 f3 f4) (p2Of f1 f2 f3 f4) ∧
        (if (f1 + f2 - f3 - f4) % 2 = 0 then ∃ k : ℤ, q = (k : ℚ)
         else ∃ k : ℤ, 0 ≤ k ∧ q = (k : ℚ) + 1 / 2)) ∧
    ((f1 + f2 - f3 - f4) % 2 = 0 →
      ∀ k : ℤ, 0 ≤ k → (k : ℚ) ≤ max (p1Of f1 f2 f3 f4) (p2Of f1 f2 f3 f4) →
        (k : ℚ) ∈ stGrid (p1Of f1 f2 f3 f4) (p2Of f1 f2 f3 f4)) ∧
    ((f1 + f2 - f3 - f4) % 2 ≠ 0 →
      ∀ k : ℤ, 0 ≤ k → (k : ℚ) + 1 / 2 ≤ max (p1Of f1 f2 f3 f4) (p2Of f1 f2 f3 f4) →
        ((k : ℚ) + 1 / 2) ∈ stGrid (p1Of f1 f2 f3 f4) (p2Of f1 f2 f3 f4)) ∧
    (∀ r ∈ rowsOf f1 f2 f3 f4,
      r.S ∈ stGrid (p1Of f1 f2 f3 f4) (p2Of f1 f2 f3 f4) ∧
      r.T ∈ stGrid (p1Of f1 f2 f3 f4) (p2Of f1 f2 f3 f4)) := by
  have hp1 : p1Of f1 f2 f3 f4 = ((f1 + f2 - f3 - f4 : ℤ) : ℚ) / 2 := rfl
  have hp2 : p2Of f1 f2 f3 f4 = ((f1 - f2 + f3 - f4 : ℤ) : ℚ) / 2 := rfl
  have he0 : (0 : ℤ) ≤ f1 - f2 + f3 - f4 := by omega
  have hed : f1 - f2 + f3 - f4 ≤ f1 + f2 - f3 - f4 := by omega
  have hd0 : (0 : ℤ) ≤ f1 + f2 - f3 - f4 := by omega
  have hmax : max (p1Of f1 f2 f3 f4) (p2Of f1 f2 f3 f4) = p1Of f1 f2 f3 f4 := by
    rw [hp1, hp2]
    apply max_eq_left
    rw [div_le_div_iff_of_pos_right (by norm_num : (0 : ℚ) < 2)]
    exact_mod_cast hed
  refine ⟨?_, ?_, ?_, ?_, ?_⟩
  · rw [hp1, show 2 * (((f1 + f2 - f3 - f4 : ℤ) : ℚ) / 2) = ((f1 + f2 - f3 - f4 : ℤ) : ℚ)
      by push_cast; ring, pyInt_intCast]
  · intro q hq
    rw [hp1, hp2, mem_stGrid_doubled _ _ he0 hed] at hq
    obtain ⟨x, hx0, hxd, hxp, rfl⟩ := hq
    refine ⟨by positivity, ?_, ?_⟩
    · rw [hmax, hp1, div_le_div_iff_of_pos_right (by norm_num : (0 : ℚ) < 2)]
      exact_mod_cast hxd
    · split_ifs with hpar
      · refine ⟨x / 2, ?_⟩
        have hx2 : x = 2 * (x / 2) := by omega
        rw [show ((x : ℚ)) / 2 = ((2 * (x / 2) : ℤ) : ℚ) / 2 from by rw [← hx2]]
        push_cast
        ring
      · refine ⟨x / 2, by omega, ?_⟩
        have hx2 : x = 2 * (x / 2) + 1 := by omega
        rw [show ((x : ℚ)) / 2 = ((2 * (x / 2) + 1 : ℤ) : ℚ) / 2 from by rw [← hx2]]
        push_cast
        ring
  · intro hpar k hk0 hkcap
    rw [hp1, hp2, mem_stGrid_doubled _ _ he0 hed]
    rw [hmax, hp1] at hkcap
    have hkd : 2 * k ≤ f1 + f2 - f3 - f4 := by
      have h2 : ((2 * k : ℤ) : ℚ) ≤ ((f1 + f2 - f3 - f4 : ℤ) : ℚ) := by
        push_cast at hkcap ⊢
        linarith
      exact_mod_cast h2
    exact ⟨2 * k, by omega, by omega, by omega, by push_cast; ring⟩
  · intro hpar k hk0 hkcap
    rw [hp1, hp2, mem_stGrid_doubled _ _ he0 hed]
    rw [hmax, hp1] at hkcap
    have hkd : 2 * k + 1 ≤ f1 + f2 - f3 - f4 := by
      have : ((2 * k + 1 : ℤ) : ℚ) / 2 ≤ ((f1 + f2 - f3 - f4 : ℤ) : ℚ) / 2 := by
        rw [show ((2 * k + 1 : ℤ) : ℚ) / 2 = (k : ℚ) + 1 / 2 by push_cast; ring]
        exact hkcap
      rw [div_le_div_iff_of_pos_right (by norm_num : (0 : ℚ) < 2)] at this
      exact_mod_cast this
    exact ⟨2 * k + 1, by omega, by omega, by omega, by push_cast; ring⟩
  · intro r hr
    obtain ⟨x, hx, hS, hT, _, _⟩ := mem_addCum hr
    have := mem_stPairs hx
    rw [hS, hT]
    exact ⟨this.1, this.2.1⟩

theorem claim_C4_grid_parity_witness :
    ((1 : ℤ) ≤ 2 ∧ (1 : ℤ) ≤ 1 ∧ (0 : ℤ) ≤ 1) ∧
    (∀ r ∈ rowsOf 2 1 1 0,
      r.S ∈ stGrid (p1Of 2 1 1 0) (p2Of 2 1 1 0) ∧
      r.T ∈ stGrid (p1Of 2 1 1 0) (p2Of 2 1 1 0)) :=
  ⟨⟨by norm_num, le_refl 1, by norm_num⟩,
    (claim_C4_grid_parity 2 1 1 0 (by norm_num) (le_refl 1) (by norm_num)).2.2.2.2⟩

/-- C7 (counterexample): at `(2, 1, 1, 0)` the computed SU(4) dimension is
15, not 20 as the claim states, and the summed `dim` column is 15. -/
theorem claim_C7_counterexample :
    (racah_su4_to_st 2 1 1 0 false).map (fun r => r.1.dimension) = .ok 15 ∧
    (racah_su4_to_st 2 1 1 0 false).map (fun r => (r.2.map (·.dim)).sum) = .ok 15 ∧
    (15 : ℤ) ≠ 20 := by
  rw [racah_false_of_ok (by norm_num), info_2110_eval, rows_2110_eval]
  norm_num [Except.map]

/-- C7 (amended): on `(2, 1, 1, 0)` the computation yields `α=1, β=0, γ=1`,
`p1=1, p2=1, p3=0`, dimension 15, iterates S and T over the integer grid
`{0, 1}`, and returns the rows `(S,T) ∈ {(0,1),(1,0),(1,1)}` each with
multiplicity 1, the `dim` column summing to 15. -/
theorem claim_C7_concrete_case :
    racah_su4_to_st 2 1 1 0 false =
      .ok ({ f1 := 2, f2 := 1, f3 := 1, f4 := 0, p1 := 1, p2 := 1, p3 := 0,
             alpha := 1, beta := 0, gamma := 1, casimir := 32, dimension := 15 },
           [⟨0, 1, 1, 3, 3⟩, ⟨1, 0, 1, 3, 6⟩, ⟨1, 1, 1, 9, 15⟩]) ∧
    stGrid (p1Of 2 1 1 0) (p2Of 2 1 1 0) = [0, 1] ∧
    ((rowsOf 2 1 1 0).map (·.dim)).sum = 15 := by
  rw [racah_false_of_ok (by norm_num), info_2110_eval, rows_2110_eval, grid_2110_eval]
  norm_num

/-- C9: for every U(6) or U(10) occupation label (a non-increasing list of
non-negative integers of the right length), the adapter raises the Pauli
condition exactly when the first element exceeds 4, and otherwise returns
the conjugate partition of the input (in the spec's counting formulation),
iteratively reduced while at least 4 parts remain, right-padded with zeros
to exactly 4 entries — a valid (non-increasing, non-negative) SU(4)
label. -/
theorem claim_C9_adapter_conjugation (u : List ℤ) (n : ℕ) (hn : n = 6 ∨ n = 10)
    (hlen : u.length = n) (hpos : ∀ x ∈ u, 0 ≤ x)
    (hni : u.Chain' (fun a b => b ≤ a)) :
    (4 < u.headI →
      (if n = 6 then u6_to_su4_irrep u else u10_to_su4_irrep u) = .error .pauliViolation) ∧
    (u.headI ≤ 4 → ∃ a b c d : ℤ,
      (if n = 6 then u6_to_su4_irrep u else u10_to_su4_irrep u) = .ok (a, b, c, d) ∧
      padTo4 (simplifySteps (specConjugate u)) = [a, b, c, d] ∧
      d ≤ c ∧ c ≤ b ∧ b ≤ a ∧ 0 ≤ d) := by
  have hsh : (if n = 6 then u6_to_su4_irrep u else u10_to_su4_irrep u) =
      uShell_to_su4_irrep n u := by
    rcases hn with rfl | rfl <;> simp [u6_to_su4_irrep, u10_to_su4_irrep]
  rw [hsh]
  exact uShell_spec n u hlen (by omega) hpos hni

theorem claim_C9_adapter_conjugation_witness :
    (([2, 1, 1, 0, 0, 0] : List ℤ).length = 6 ∧
      (∀ x ∈ ([2, 1, 1, 0, 0, 0] : List ℤ), 0 ≤ x) ∧
      ([2, 1, 1, 0, 0, 0] : List ℤ).Chain' (fun a b => b ≤ a)) ∧
    (([2, 1, 1, 0, 0, 0] : List ℤ).headI ≤ 4 → ∃ a b c d : ℤ,
      (if 6 = 6 then u6_to_su4_irrep [2, 1, 1, 0, 0, 0]
       else u10_to_su4_irrep [2, 1, 1, 0, 0, 0]) = .ok (a, b, c, d) ∧
      padTo4 (simplifySteps (specConjugate [2, 1, 1, 0, 0, 0])) = [a, b, c, d] ∧
      d ≤ c ∧ c ≤ b ∧ b ≤ a ∧ 0 ≤ d) :=
  ⟨⟨by decide, by decide, by simp [List.chain'_cons]⟩,
    (claim_C9_adapter_conjugation [2, 1, 1, 0, 0, 0] 6 (Or.inl rfl)
      (by decide) (by decide) (by simp [List.chain'_cons])).2⟩

/-- C1: for every admissible label (`f1 ≥ f2 ≥ f3 ≥ f4 ≥ 0`) the branching
computation succeeds (with `verbose=False`), the sum of the `dim` column over
the returned rows equals the reported SU(4) dimension exactly, and that
dimension is the exact positive integer value of the
`(f1-f2+1)(f1-f3+2)(f1-f4+3)(f2-f3+1)(f2-f4+2)(f3-f4+1)/12` formula. -/
theorem claim_C1_dimension_sum (f1 f2 f3 f4 : ℤ) (h21 : f2 ≤ f1) (h32 : f3 ≤ f2)
    (h43 : f4 ≤ f3) (h40 : 0 ≤ f4) :
    racah_su4_to_st f1 f2 f3 f4 false
        = .ok (infoOf f1 f2 f3 f4, rowsOf f1 f2 f3 f4)
      ∧ (((rowsOf f1 f2 f3 f4).map (·.dim)).sum = (infoOf f1 f2 f3 f4).dimension)
      ∧ 0 < (infoOf f1 f2 f3 f4).dimension
      ∧ (((infoOf f1 f2 f3 f4).dimension : ℤ) : ℚ) = dimsu4 f1 f2 f3 f4 := by
  obtain ⟨hexact, hpos⟩ := pyInt_dimsu4 f1 f2 f3 f4 h21 h32 h43
  have hsum := rowsOf_dim_sum f1 f2 f3 f4 h21 h32 h43
  have hdimfield : (infoOf f1 f2 f3 f4).dimension = pyInt (dimsu4 f1 f2 f3 f4) := rfl
  refine ⟨racah_false_of_ok (by omega), ?_, ?_, ?_⟩
  · have hq : ((((rowsOf f1 f2 f3 f4).map (·.dim)).sum : ℤ) : ℚ)
        = (((infoOf f1 f2 f3 f4).dimension : ℤ) : ℚ) := by
      rw [hsum, hdimfield, hexact]
    exact_mod_cast hq
  · rw [hdimfield]
    exact hpos
  · rw [hdimfield]
    exact hexact

/-- Witness for C1 at the concrete admissible label `(2, 1, 1, 0)`. -/
theorem claim_C1_dimension_sum_witness :
    racah_su4_to_st 2 1 1 0 false = .ok (infoOf 2 1 1 0, rowsOf 2 1 1 0)
      ∧ (((rowsOf 2 1 1 0).map (·.dim)).sum = (infoOf 2 1 1 0).dimension)
      ∧ 0 < (infoOf 2 1 1 0).dimension
      ∧ (((infoOf 2 1 1 0).dimension : ℤ) : ℚ) = dimsu4 2 1 1 0 :=
  claim_C1_dimension_sum 2 1 1 0 (by norm_num) (by norm_num) (by norm_num) (by norm_num)

end Su4
